import Mathlib

/-!
Shallow embedding of the `OutlineScript` multi-agent orchestration module
(`@/agents/outlineScript.ts`) of the Toonflow repository, together with
theorems settling the specification claims about it.

The record store is modelled as in-memory lists of records (`Db`); a query
without an `orderBy` returns records in store order, `orderBy` is modelled by
a stable insertion sort on the requested column, `first()` is `List.head?`,
`insert` appends records with fresh auto-increment ids, `max` folds `max`
over the matching rows.  A JSON text column is modelled by `Payload`: either
a parsed structured document (`EpisodeDoc`, all fields optional, mirroring
`Partial<EpisodeData>`) or an unparseable string (`Payload.malformed`), on
which `JSON.parse` would throw.
-/

namespace Toonflow

/-- `AssetItem` of the source: a named character/prop/scene entry. -/
structure AssetItem where
  name : String
  description : String
deriving DecidableEq, Repr

/-- `EpisodeData` of the source: the full episode document, as validated by
`episodeSchema` (all fields present). -/
structure EpisodeData where
  episodeIndex : Int
  title : String
  chapterRange : List Int
  scenes : List AssetItem
  characters : List AssetItem
  props : List AssetItem
  coreConflict : String
  outline : String
  openingHook : String
  keyEvents : List String
  emotionalCurve : String
  visualHighlights : List String
  endingHook : String
  classicQuotes : List String
deriving DecidableEq, Repr

/-- `Partial<EpisodeData>`: what `JSON.parse` of a stored `data` column can
yield — any subset of the episode fields may be present. -/
structure EpisodeDoc where
  episodeIndex : Option Int := none
  title : Option String := none
  chapterRange : Option (List Int) := none
  scenes : Option (List AssetItem) := none
  characters : Option (List AssetItem) := none
  props : Option (List AssetItem) := none
  coreConflict : Option String := none
  outline : Option String := none
  openingHook : Option String := none
  keyEvents : Option (List String) := none
  emotionalCurve : Option String := none
  visualHighlights : Option (List String) := none
  endingHook : Option String := none
  classicQuotes : Option (List String) := none
deriving DecidableEq, Repr

/-- `JSON.stringify` of a full episode document: every field present. -/
def EpisodeData.toDoc (e : EpisodeData) : EpisodeDoc where
  episodeIndex := some e.episodeIndex
  title := some e.title
  chapterRange := some e.chapterRange
  scenes := some e.scenes
  characters := some e.characters
  props := some e.props
  coreConflict := some e.coreConflict
  outline := some e.outline
  openingHook := some e.openingHook
  keyEvents := some e.keyEvents
  emotionalCurve := some e.emotionalCurve
  visualHighlights := some e.visualHighlights
  endingHook := some e.endingHook
  classicQuotes := some e.classicQuotes

/-- A stored `data` text column: either text that parses to an episode
document, or text on which `JSON.parse` throws. -/
inductive Payload where
  | parsed (doc : EpisodeDoc)
  | malformed
deriving DecidableEq, Repr

/-- `safeParseJson` of the source: `JSON.parse` inside `try`, returning the
fallback when parsing throws. -/
def safeParseJson (s : Payload) (fallback : EpisodeDoc) : EpisodeDoc :=
  match s with
  | .parsed doc => doc
  | .malformed => fallback

/-- `AssetType` of the source: `"角色" | "道具" | "场景"`. -/
inductive AssetType where
  | character
  | prop
  | scene
deriving DecidableEq, Repr

/-- A `t_outline` row. -/
structure OutlineRec where
  id : Nat
  projectId : Nat
  episode : Int
  data : Payload
deriving DecidableEq, Repr

/-- A `t_script` row (only the columns this module writes or filters on). -/
structure ScriptRec where
  name : String
  content : String
  projectId : Nat
  outlineId : Nat
deriving DecidableEq, Repr

/-- A `t_assets` row. -/
structure AssetRec where
  id : Nat
  projectId : Nat
  type : AssetType
  name : String
  intro : String
  prompt : String
deriving DecidableEq, Repr

/-- The record store state used by the orchestration module: the
`t_outline`, `t_script` and `t_assets` collections with their
auto-increment counters. -/
structure Db where
  outlines : List OutlineRec
  scripts : List ScriptRec
  assets : List AssetRec
  nextOutlineId : Nat
  nextAssetId : Nat
deriving DecidableEq, Repr

def emptyDb : Db := ⟨[], [], [], 0, 0⟩

/-- `t_outline.where({projectId})` without an `orderBy`: matching rows in
store order. -/
def projectOutlines (pid : Nat) (db : Db) : List OutlineRec :=
  db.outlines.filter (fun o => o.projectId == pid)

/-- Stable insert for `orderBy("episode", "asc")`. -/
def insertAscRec (o : OutlineRec) : List OutlineRec → List OutlineRec
  | [] => [o]
  | x :: xs => if x.episode ≤ o.episode then x :: insertAscRec o xs else o :: x :: xs

/-- The left fold of a stable insertion sort, ascending. -/
def sortAscAux : List OutlineRec → List OutlineRec → List OutlineRec
  | acc, [] => acc
  | acc, x :: xs => sortAscAux (insertAscRec x acc) xs

/-- Stable sort on the `episode` column, ascending (ties keep store order). -/
def sortEpisodeAsc (l : List OutlineRec) : List OutlineRec :=
  sortAscAux [] l

/-- Stable insert for `orderBy("episode", "desc")`. -/
def insertDescRec (o : OutlineRec) : List OutlineRec → List OutlineRec
  | [] => [o]
  | x :: xs => if o.episode ≤ x.episode then x :: insertDescRec o xs else o :: x :: xs

/-- The left fold of a stable insertion sort, descending. -/
def sortDescAux : List OutlineRec → List OutlineRec → List OutlineRec
  | acc, [] => acc
  | acc, x :: xs => sortDescAux (insertDescRec x acc) xs

/-- Stable sort on the `episode` column, descending (ties keep store order). -/
def sortEpisodeDesc (l : List OutlineRec) : List OutlineRec :=
  sortDescAux [] l

/-- `findOutlines`: `where({projectId}).orderBy("episode","asc")`. -/
def findOutlines (pid : Nat) (db : Db) : List OutlineRec :=
  sortEpisodeAsc (projectOutlines pid db)

/-- `getMaxEpisode`: `max("episode")` over the project's outlines, `0` when
there are none (`result?.max ?? 0`). -/
def getMaxEpisode (pid : Nat) (db : Db) : Int :=
  match (projectOutlines pid db).map (fun o => o.episode) with
  | [] => 0
  | e :: es => es.foldl max e

/-- `clearOutlinesAndScripts`: delete the scripts whose `outlineId` is among
the project's outline ids, then delete all the project's outlines; returns
the number of outlines that existed. -/
def clearOutlinesAndScripts (pid : Nat) (db : Db) : Nat × Db :=
  let outlineIds := (projectOutlines pid db).map (fun o => o.id)
  if outlineIds.isEmpty then (0, db)
  else
    (outlineIds.length,
     { db with
         scripts := db.scripts.filter (fun s => !(outlineIds.contains s.outlineId)),
         outlines := db.outlines.filter (fun o => !(o.projectId == pid)) })

/-- The rows built by `insertOutlines`'s indexed map
`episodes.map((ep, idx) => ...)`: the idx-th row gets episode
`startEpisode + idx`, and its stored document is the input document with its
`episodeIndex` field overwritten by the assigned episode number.  (Here the
indexed map is unrolled into structural recursion over the batch, advancing
the auto-increment id and the episode number together.) -/
def insertList (pid : Nat) (startId : Nat) (startEp : Int) : List EpisodeData → List OutlineRec
  | [] => []
  | ep :: rest =>
      { id := startId, projectId := pid, episode := startEp,
        data := Payload.parsed (EpisodeData.toDoc { ep with episodeIndex := startEp }) }
        :: insertList pid (startId + 1) (startEp + 1) rest

/-- `insertOutlines`: append the batch to `t_outline`; returns the number
inserted. -/
def insertOutlines (pid : Nat) (episodes : List EpisodeData) (startEpisode : Int) (db : Db) : Nat × Db :=
  let rows := insertList pid db.nextOutlineId startEpisode episodes
  (rows.length,
   { db with outlines := db.outlines ++ rows, nextOutlineId := db.nextOutlineId + rows.length })

/-- The script row built for one `{id, data}` entry in `createEmptyScripts`:
named `第<episodeIndex>集`, with `data.episodeIndex ?? ""` — a missing
episode-index field leaves the index blank in the name. -/
def scriptFor (pid : Nat) (entry : Nat × Payload) : ScriptRec :=
  let d := safeParseJson entry.2 {}
  { name := "第" ++ (match d.episodeIndex with | some n => toString n | none => "") ++ "集",
    content := "",
    projectId := pid,
    outlineId := entry.1 }

/-- `createEmptyScripts`: insert one empty script per `{id, data}` entry;
returns the number created. -/
def createEmptyScripts (pid : Nat) (entries : List (Nat × Payload)) (db : Db) : Nat × Db :=
  let scripts := entries.map (scriptFor pid)
  (scripts.length, { db with scripts := db.scripts ++ scripts })

/-- Result of `saveOutlineData`. -/
structure SaveResult where
  db : Db
  insertedCount : Nat
  scriptCount : Nat
deriving DecidableEq, Repr

/-- `saveOutlineData`: optionally clear, compute the effective start episode
(`1` when overwriting, else `startEpisode ?? max + 1`), insert the batch,
re-select the `insertedCount` rows with the highest episode numbers
(`orderBy("episode","desc").limit(insertedCount)`) and create one empty
script per selected row. -/
def saveOutlineData (pid : Nat) (episodes : List EpisodeData) (overwrite : Bool)
    (startEpisode : Option Int) (db : Db) : SaveResult :=
  let db1 := if overwrite then (clearOutlinesAndScripts pid db).2 else db
  let actualStart : Int := if overwrite then 1 else startEpisode.getD (getMaxEpisode pid db1 + 1)
  let ins := insertOutlines pid episodes actualStart db1
  let newOutlines := ((sortEpisodeDesc (projectOutlines pid ins.2)).take ins.1).map
    (fun o => (o.id, o.data))
  let scr := createEmptyScripts pid newOutlines ins.2
  { db := scr.2, insertedCount := ins.1, scriptCount := scr.1 }

/-- `updateOutlineData`: `findOutlineById` (`where({id, projectId}).first()`),
then overwrite the `data` column of the rows with that `id`; `false` when the
id is absent for the project. -/
def updateOutlineData (pid : Nat) (id : Nat) (d : EpisodeData) (db : Db) : Bool × Db :=
  match (db.outlines.filter (fun o => o.id == id && o.projectId == pid)).head? with
  | none => (false, db)
  | some _ =>
      let f := fun (o : OutlineRec) =>
        if o.id == id then { o with data := Payload.parsed d.toDoc } else o
      (true, { db with outlines := db.outlines.map f })

/-- Modelled from the spec: `u.deleteOutline(id, projectId)` — the per-id
delete called by `deleteOutlineData` — is not part of the provided source
(only its caller is).  Per §4.2/§8 of the spec, deleting an outline id
removes that outline and cascades to its script, and a non-existent id is
reported as a failure (a rejected promise) for that id. -/
def deleteOutlineOne (id : Nat) (pid : Nat) (db : Db) : Option Db :=
  if db.outlines.any (fun o => o.id == id && o.projectId == pid) then
    some { db with
             outlines := db.outlines.filter (fun o => !(o.id == id && o.projectId == pid)),
             scripts := db.scripts.filter (fun s => !(s.outlineId == id)) }
  else none

/-- Outcome of one promise in `Promise.allSettled`. -/
inductive SettledStatus where
  | fulfilled
  | rejected
deriving DecidableEq, Repr

/-- `deleteOutlineData`: `Promise.allSettled(ids.map(id => u.deleteOutline(id,
projectId)))` — every id's deletion is attempted, and a per-id settled status
is collected; one id's failure never cancels the others. -/
def deleteOutlineData (pid : Nat) (ids : List Nat) (db : Db) : List SettledStatus × Db :=
  match ids with
  | [] => ([], db)
  | id :: rest =>
      match deleteOutlineOne id pid db with
      | some db2 =>
          let r := deleteOutlineData pid rest db2
          (SettledStatus.fulfilled :: r.1, r.2)
      | none =>
          let r := deleteOutlineData pid rest db
          (SettledStatus.rejected :: r.1, r.2)

/-- `uniqueByName`'s underlying `Map.set` step: an existing key keeps its
position but takes the new value; a new key is appended. -/
def mapInsert (acc : List AssetItem) (item : AssetItem) : List AssetItem :=
  if acc.any (fun x => x.name == item.name) then
    acc.map (fun x => if x.name == item.name then item else x)
  else acc ++ [item]

/-- The left fold of `uniqueByName` over the `Map.set` steps. -/
def uniqueAux : List AssetItem → List AssetItem → List AssetItem
  | acc, [] => acc
  | acc, item :: rest => uniqueAux (mapInsert acc item) rest

/-- `uniqueByName`: `Array.from(new Map(items.map(i => [i.name, i])).values())`
— deduplicate by name, last occurrence's value winning, first occurrence's
position kept. -/
def uniqueByName (items : List AssetItem) : List AssetItem :=
  uniqueAux [] items

/-- The three accumulated entry lists of `extractAssetsFromOutlines`. -/
structure Extracted where
  characters : List AssetItem
  props : List AssetItem
  scenes : List AssetItem
deriving DecidableEq, Repr

/-- One iteration of `extractAssetsFromOutlines`'s loop: parse the
outline's payload (falling back to `{}`), appending its character/prop/scene
lists when present. -/
def accumulateStep (acc : Extracted) (o : OutlineRec) : Extracted :=
  let d := safeParseJson o.data {}
  { characters := acc.characters ++ d.characters.getD [],
    props := acc.props ++ d.props.getD [],
    scenes := acc.scenes ++ d.scenes.getD [] }

/-- The accumulation loop of `extractAssetsFromOutlines`. -/
def accumulateAssets (outs : List OutlineRec) : Extracted :=
  outs.foldl accumulateStep ⟨[], [], []⟩

/-- `extractAssetsFromOutlines`: accumulate entries across the outlines in
scan order, then deduplicate each list by name. -/
def extractAssetsFromOutlines (outs : List OutlineRec) : Extracted :=
  let raw := accumulateAssets outs
  { characters := uniqueByName raw.characters,
    props := uniqueByName raw.props,
    scenes := uniqueByName raw.scenes }

/-- `t_assets.where({projectId, type, name})` in store order. -/
def assetsOf (pid : Nat) (t : AssetType) (n : String) (db : Db) : List AssetRec :=
  db.assets.filter (fun a => a.projectId == pid && a.type == t && a.name == n)

/-- `findAssetByTypeAndName`: the same query with `.first()`. -/
def findAssetByTypeAndName (pid : Nat) (t : AssetType) (n : String) (db : Db) : Option AssetRec :=
  (assetsOf pid t n db).head?

/-- Outcome of `upsertAsset` for one entry. -/
inductive UpsertResult where
  | inserted
  | updated
  | skipped
deriving DecidableEq, Repr

/-- `upsertAsset`: insert when the (type, name) key is absent; update `intro`
and `prompt` when present with a different `intro`; otherwise skip. -/
def upsertAsset (pid : Nat) (t : AssetType) (item : AssetItem) (db : Db) : UpsertResult × Db :=
  match findAssetByTypeAndName pid t item.name db with
  | none =>
      (UpsertResult.inserted,
       { db with
           assets := db.assets ++
             [{ id := db.nextAssetId, projectId := pid, type := t, name := item.name,
                intro := item.description, prompt := item.description }],
           nextAssetId := db.nextAssetId + 1 })
  | some existing =>
      if existing.intro ≠ item.description then
        let f := fun (a : AssetRec) =>
          if a.id == existing.id then
            { a with intro := item.description, prompt := item.description }
          else a
        (UpsertResult.updated, { db with assets := db.assets.map f })
      else (UpsertResult.skipped, db)

/-- Counters returned by `generateAssetsFromOutlines`. -/
structure Stats where
  inserted : Nat
  updated : Nat
  skipped : Nat
deriving DecidableEq, Repr

def bump (st : Stats) : UpsertResult → Stats
  | .inserted => { st with inserted := st.inserted + 1 }
  | .updated => { st with updated := st.updated + 1 }
  | .skipped => { st with skipped := st.skipped + 1 }

/-- `processItems`: upsert each entry of one type in order, accumulating the
counters. -/
def processItems (pid : Nat) (t : AssetType) : List AssetItem → Stats × Db → Stats × Db
  | [], acc => acc
  | it :: rest, acc =>
      let r := upsertAsset pid t it acc.2
      processItems pid t rest (bump acc.1 r.1, r.2)

/-- `generateAssetsFromOutlines`: scan the project's outlines (a plain
`where({projectId})`, no ordering requested), extract and deduplicate the
entries, then upsert characters, props and scenes in that order. -/
def generateAssetsFromOutlines (pid : Nat) (db : Db) : Stats × Db :=
  let outlines := projectOutlines pid db
  if outlines.isEmpty then (⟨0, 0, 0⟩, db)
  else
    let ex := extractAssetsFromOutlines outlines
    let s1 := processItems pid AssetType.character ex.characters (⟨0, 0, 0⟩, db)
    let s2 := processItems pid AssetType.prop ex.props s1
    processItems pid AssetType.scene ex.scenes s2

/-- JS `x || d` on an optional string: the default replaces both a missing
and an empty (falsy) string. -/
def jsOrStr (s : Option String) (d : String) : String :=
  match s with
  | some v => if v = "" then d else v
  | none => d

/-- JS template interpolation of a possibly-undefined number. -/
def jsShowOptInt (n : Option Int) : String :=
  match n with
  | some v => toString v
  | none => "undefined"

/-- The `formatList` helper of `formatOutlineDetail`: numbered lines, or
`"  无"` when the list is missing or renders empty. -/
def formatList (items : Option (List String)) : String :=
  jsOrStr (items.map (fun l =>
    String.intercalate "\n" (l.mapIdx (fun i x => "  " ++ toString (i + 1) ++ ". " ++ x)))) "  无"

/-- The `formatKeyEvents` helper: each event tagged 起/承/转/合 (or its
number past the fourth), or `"  无"`. -/
def formatKeyEvents (events : Option (List String)) : String :=
  jsOrStr (events.map (fun l =>
    String.intercalate "\n" (l.mapIdx (fun i e =>
      "  【" ++ (match i with
        | 0 => "起" | 1 => "承" | 2 => "转" | 3 => "合"
        | _ => toString (i + 1)) ++ "】" ++ e)))) "  无"

/-- The `name(description)` join used for the character/scene/prop lines. -/
def formatNamedList (items : Option (List AssetItem)) : String :=
  jsOrStr (items.map (fun l =>
    String.intercalate "; " (l.map (fun c => c.name ++ "(" ++ c.description ++ ")")))) "无"

/-- `formatOutlineDetail`: the full per-episode text block. -/
def formatOutlineDetail (id : Nat) (ep : EpisodeDoc) : String :=
  "\n大纲ID: " ++ toString id ++
  "\n第 " ++ jsShowOptInt ep.episodeIndex ++ " 集: " ++ jsOrStr ep.title "" ++
  "\n" ++ String.mk (List.replicate 50 '=') ++
  "\n章节范围: " ++
    jsOrStr (ep.chapterRange.map (fun l => String.intercalate ", " (l.map toString))) "" ++
  "\n核心矛盾: " ++ jsOrStr ep.coreConflict "" ++
  "\n\n【剧情主干】(最高优先级，剧本生成的唯一权威):\n" ++ jsOrStr ep.outline "无" ++
  "\n\n【开场镜头】(必须作为剧本第一个镜头):\n" ++ jsOrStr ep.openingHook "无" ++
  "\n\n【剧情节点】(严格按顺序：起→承→转→合):\n" ++ formatKeyEvents ep.keyEvents ++
  "\n\n情绪曲线: " ++ jsOrStr ep.emotionalCurve "" ++
  "\n\n【视觉重点】(按剧情主干顺序排列):\n" ++ formatList ep.visualHighlights ++
  "\n\n【结尾悬念】:\n" ++ jsOrStr ep.endingHook "无" ++
  "\n\n【经典台词】:\n" ++ formatList ep.classicQuotes ++
  "\n\n角色(按出场顺序): " ++ formatNamedList ep.characters ++
  "\n场景(按出场顺序): " ++ formatNamedList ep.scenes ++
  "\n道具(按出场顺序): " ++ formatNamedList ep.props

/-- One element of the `records.map(r => ({id, episode, ...parse(r.data)}))`
step of `getOutlineText`. -/
structure RenderedEpisode where
  id : Nat
  episode : Int
  doc : EpisodeDoc
deriving DecidableEq, Repr

/-- The `records.map(r => ({id, episode, ...safeParseJson(r.data)}))` step. -/
def renderEpisodes (records : List OutlineRec) : List RenderedEpisode :=
  records.map (fun r => RenderedEpisode.mk r.id r.episode (safeParseJson r.data {}))

/-- The simplified rendering: a `第 <episodeIndex ?? episode> 集 (id=<id>)`
line per episode. -/
def renderSimplified (episodes : List RenderedEpisode) : String :=
  "项目大纲 (共 " ++ toString episodes.length ++ " 集):\n" ++
    String.intercalate "\n" (episodes.map (fun ep =>
      "第 " ++ (match ep.doc.episodeIndex with
                | some n => toString n
                | none => toString ep.episode) ++ " 集 (id=" ++ toString ep.id ++ ")"))

/-- The full rendering: one `formatOutlineDetail` block per episode. -/
def renderFull (episodes : List RenderedEpisode) : String :=
  "项目大纲 (共 " ++ toString episodes.length ++ " 集)\n\n" ++
    String.intercalate "\n" (episodes.map (fun ep => formatOutlineDetail ep.id ep.doc))

/-- `getOutlineText`: the sentinel when the project has no outlines, the
simplified list or the full rendering otherwise. -/
def getOutlineText (simplified : Bool) (pid : Nat) (db : Db) : String :=
  if (findOutlines pid db).isEmpty then "当前项目暂无大纲"
  else if simplified then renderSimplified (renderEpisodes (findOutlines pid db))
  else renderFull (renderEpisodes (findOutlines pid db))

/-- The graceful-degradation normal form of a payload: a malformed column
behaves exactly like an explicitly stored empty document. -/
def defaultPayload (o : OutlineRec) : OutlineRec :=
  { o with data := match o.data with
                   | .malformed => Payload.parsed {}
                   | p => p }

/-- The named tools of the catalog (`getAllTools`), including the three
sub-agent delegation tools. -/
inductive ToolName where
  | getChapter
  | getStoryline
  | saveStoryline
  | deleteStoryline
  | getOutline
  | saveOutline
  | updateOutline
  | deleteOutline
  | generateAssets
  | AI1
  | AI2
  | director
deriving DecidableEq, Repr

/-- `getSubAgentTools`: the restricted subset handed to a sub-agent turn. -/
def getSubAgentTools : List ToolName :=
  [ToolName.getChapter, ToolName.getStoryline, ToolName.saveStoryline,
   ToolName.getOutline, ToolName.saveOutline, ToolName.updateOutline]

/-- `getAllTools`: the full catalog exposed to the top-level turn. -/
def getAllTools : List ToolName :=
  [ToolName.AI1, ToolName.AI2, ToolName.director,
   ToolName.getChapter, ToolName.getStoryline, ToolName.saveStoryline,
   ToolName.deleteStoryline, ToolName.getOutline, ToolName.saveOutline,
   ToolName.updateOutline, ToolName.deleteOutline, ToolName.generateAssets]

/-- The `tools:` argument `invokeSubAgent` passes to the streamed sub-agent
turn (`tools: this.getSubAgentTools()`). -/
def invokeSubAgentTools : List ToolName := getSubAgentTools

/-- The three sub-agent personas. -/
inductive AgentType where
  | AI1
  | AI2
  | director
deriving DecidableEq, Repr

/-- The `agent` tag carried by an emitted event: the fixed top-level tag
(the string `"main"`) or an acting persona. -/
inductive AgentLabel where
  | main
  | persona (a : AgentType)
deriving DecidableEq, Repr

/-- One event of the Completion Service's `fullStream`. -/
inductive StreamItem where
  | toolCall (title : String)
  | textDelta (text : String)
deriving DecidableEq, Repr

/-- One notification emitted on the event bus during a sub-agent turn. -/
inductive EmittedEvent where
  | transfer (tgt : AgentType)
  | toolCall (agent : AgentLabel) (name : String)
  | subAgentStream (agent : AgentType) (text : String)
  | subAgentEnd (agent : AgentType)
deriving DecidableEq, Repr

/-- One iteration of `invokeSubAgent`'s `for await` loop: a `tool-call`
stream item emits a `toolCall` notification tagged `agent: "main"`; a
`text-delta` item appends to the accumulator and emits a `subAgentStream`
notification tagged with the acting persona. -/
def subAgentStep (agentType : AgentType) (acc : List EmittedEvent × String)
    (item : StreamItem) : List EmittedEvent × String :=
  match item with
  | .toolCall t => (acc.1 ++ [EmittedEvent.toolCall AgentLabel.main t], acc.2)
  | .textDelta s => (acc.1 ++ [EmittedEvent.subAgentStream agentType s], acc.2 ++ s)

/-- `invokeSubAgent`'s observable behaviour on a given stream: the events
emitted (a leading `transfer`, the per-item events, a closing `subAgentEnd`)
and the accumulated final text. -/
def invokeSubAgentRun (agentType : AgentType) (stream : List StreamItem) :
    List EmittedEvent × String :=
  let s := stream.foldl (subAgentStep agentType) ([EmittedEvent.transfer agentType], "")
  (s.1 ++ [EmittedEvent.subAgentEnd agentType], s.2)

/-- The agent tag an emitted event is labeled with. -/
def eventLabel : EmittedEvent → AgentLabel
  | .transfer a => AgentLabel.persona a
  | .toolCall l _ => l
  | .subAgentStream a _ => AgentLabel.persona a
  | .subAgentEnd a => AgentLabel.persona a

/-- `[s, s+1, ..., s+n-1]`: a contiguous, gap-free ascending run of episode
numbers. -/
def rangeInts (s : Int) : Nat → List Int
  | 0 => []
  | n + 1 => s :: rangeInts (s + 1) n

/-- The per-project episode-numbering invariant: the multiset of the
project's episode numbers is a contiguous run `k .. k + count - 1`. -/
def contiguousProj (pid : Nat) (db : Db) : Prop :=
  ∃ k : Int,
    ((projectOutlines pid db).map (fun o => o.episode)).Perm
      (rangeInts k (projectOutlines pid db).length)

/-- A closed sample episode document, for concrete witnesses. -/
def sampleEpisode (n : Int) : EpisodeData :=
  { episodeIndex := n, title := "标题", chapterRange := [1, 2],
    scenes := [], characters := [], props := [],
    coreConflict := "冲突", outline := "剧情", openingHook := "开场",
    keyEvents := ["起", "承", "转", "合"], emotionalCurve := "2→9",
    visualHighlights := [], endingHook := "悬念", classicQuotes := [] }

/-- A sample episode whose characters list contains one named entry. -/
def sampleEpisodeWith (n : Int) (c : AssetItem) : EpisodeData :=
  { sampleEpisode n with characters := [c] }

end Toonflow

namespace Toonflow

/-- The labeling `invokeSubAgent` actually applies to its emitted events:
the persona on every event except `toolCall` notifications, which carry the
fixed top-level tag. -/
def amendedLabel (a : AgentType) : EmittedEvent → Prop
  | .toolCall l _ => l = AgentLabel.main
  | e => eventLabel e = AgentLabel.persona a

/-- A concrete store with one project holding episodes 1 and 2 (built by an
overwrite save from the empty store). -/
def dbTwoEpisodes : Db :=
  (saveOutlineData 1 [sampleEpisode 1, sampleEpisode 2] true none emptyDb).db

/-- The result of appending one episode to `dbTwoEpisodes` with an explicit
`startEpisode = 1` that collides with the existing numbering. -/
def overlapSave : SaveResult :=
  saveOutlineData 1 [sampleEpisode 99] false (some 1) dbTwoEpisodes

/-- `dbTwoEpisodes` after appending one further episode with an explicit
`startEpisode = 5`, leaving the episode numbers `1, 2, 5`. -/
def dbGap : Db :=
  (saveOutlineData 1 [sampleEpisode 9] false (some 5) dbTwoEpisodes).db

/-- A store whose episode-2 outline holds the character `Lin`/`A` (episode 1
holds no characters). -/
def dbLinEp2 : Db :=
  (saveOutlineData 1 [sampleEpisode 1, sampleEpisodeWith 2 (AssetItem.mk "Lin" "A")]
    true none emptyDb).db

/-- `dbLinEp2` after appending an outline carrying `Lin`/`B` with
`startEpisode = 1`: the `Lin`/`B` row is stored last but its episode number
(1) is lower than the episode number (2) of the `Lin`/`A` row. -/
def dbLinStoreLast : Db :=
  (saveOutlineData 1 [sampleEpisodeWith 99 (AssetItem.mk "Lin" "B")] false (some 1) dbLinEp2).db

/-- A store whose two outlines hold `Lin`/`A` (episode 1) and `Lin`/`B`
(episode 2), stored in episode order. -/
def dbLinTwo : Db :=
  (saveOutlineData 1
    [sampleEpisodeWith 1 (AssetItem.mk "Lin" "A"), sampleEpisodeWith 2 (AssetItem.mk "Lin" "B")]
    true none emptyDb).db

/-- `items.filter(x => x.name === n)`: the occurrences of a name, in order. -/
def findName (n : String) (l : List AssetItem) : List AssetItem :=
  l.filter (fun x => x.name == n)

/-! ### Basic lemmas about the embedding -/

theorem rangeInts_length (s : Int) (n : Nat) : (rangeInts s n).length = n := by
  induction n generalizing s with
  | zero => rfl
  | succ n ih => simp [rangeInts, ih]

theorem mem_rangeInts {x s : Int} {n : Nat} : x ∈ rangeInts s n ↔ s ≤ x ∧ x < s + n := by
  induction n generalizing s with
  | zero => simp [rangeInts]
  | succ n ih =>
      simp only [rangeInts, List.mem_cons, ih]
      constructor
      · rintro (rfl | ⟨h1, h2⟩) <;> constructor <;> omega
      · rintro ⟨h1, h2⟩
        rcases eq_or_lt_of_le h1 with rfl | hlt
        · exact Or.inl rfl
        · exact Or.inr ⟨by omega, by omega⟩

theorem rangeInts_append (m n : Nat) (s : Int) :
    rangeInts s m ++ rangeInts (s + m) n = rangeInts s (m + n) := by
  induction m generalizing s with
  | zero => simp [rangeInts]
  | succ m ih =>
      have : s + (↑m + 1) = (s + 1) + ↑m := by omega
      simp only [rangeInts, List.cons_append, Nat.succ_add]
      rw [show s + ↑(m + 1) = (s + 1) + ↑m by push_cast; omega, ih]

theorem insertList_length (pid : Nat) (eps : List EpisodeData) :
    ∀ (sid : Nat) (s : Int), (insertList pid sid s eps).length = eps.length := by
  induction eps with
  | nil => intro sid s; rfl
  | cons ep rest ih => intro sid s; simp [insertList, ih]

theorem insertList_map_episode (pid : Nat) (eps : List EpisodeData) :
    ∀ (sid : Nat) (s : Int),
      (insertList pid sid s eps).map (fun o => o.episode) = rangeInts s eps.length := by
  induction eps with
  | nil => intro sid s; rfl
  | cons ep rest ih => intro sid s; simp [insertList, rangeInts, ih]

theorem insertList_forall2 (pid : Nat) (eps : List EpisodeData) :
    ∀ (sid : Nat) (s : Int),
      List.Forall₂
        (fun ep o => o.data =
          Payload.parsed (EpisodeData.toDoc { ep with episodeIndex := o.episode }))
        eps (insertList pid sid s eps) := by
  induction eps with
  | nil => intro sid s; exact List.Forall₂.nil
  | cons ep rest ih => intro sid s; exact List.Forall₂.cons rfl (ih (sid + 1) (s + 1))

theorem insertList_pid (pid : Nat) (eps : List EpisodeData) :
    ∀ (sid : Nat) (s : Int) (o : OutlineRec),
      o ∈ insertList pid sid s eps → o.projectId = pid := by
  induction eps with
  | nil => intro sid s o h; cases h
  | cons ep rest ih =>
      intro sid s o h
      rcases List.mem_cons.mp h with rfl | h
      · rfl
      · exact ih (sid + 1) (s + 1) o h

theorem insertList_id_ge (pid : Nat) (eps : List EpisodeData) :
    ∀ (sid : Nat) (s : Int) (o : OutlineRec),
      o ∈ insertList pid sid s eps → sid ≤ o.id := by
  induction eps with
  | nil => intro sid s o h; cases h
  | cons ep rest ih =>
      intro sid s o h
      rcases List.mem_cons.mp h with rfl | h
      · exact le_refl _
      · exact le_trans (Nat.le_succ sid) (ih (sid + 1) (s + 1) o h)

theorem insertList_filter_pid (pid : Nat) (eps : List EpisodeData) (sid : Nat) (s : Int) :
    (insertList pid sid s eps).filter (fun o => o.projectId == pid) =
      insertList pid sid s eps :=
  List.filter_eq_self.mpr (fun o ho => by
    simp [insertList_pid pid eps sid s o ho])

theorem filter_not_filter {α : Type} (p : α → Bool) (l : List α) :
    (l.filter (fun x => !(p x))).filter p = [] := by
  induction l with
  | nil => rfl
  | cons x xs ih =>
      by_cases h : p x <;> simp [List.filter_cons, h, ih]

/-! ### Lemmas about the stable sorts -/

theorem insertAscRec_length (o : OutlineRec) (l : List OutlineRec) :
    (insertAscRec o l).length = l.length + 1 := by
  induction l with
  | nil => rfl
  | cons x xs ih => simp only [insertAscRec]; split <;> simp [ih]

theorem sortAscAux_length (l : List OutlineRec) :
    ∀ acc, (sortAscAux acc l).length = acc.length + l.length := by
  induction l with
  | nil => intro acc; simp [sortAscAux]
  | cons x xs ih =>
      intro acc
      simp [sortAscAux, ih, insertAscRec_length]
      omega

theorem sortEpisodeAsc_length (l : List OutlineRec) :
    (sortEpisodeAsc l).length = l.length := by
  simp [sortEpisodeAsc, sortAscAux_length]

theorem mem_insertAscRec {a o : OutlineRec} {l : List OutlineRec} :
    a ∈ insertAscRec o l ↔ a = o ∨ a ∈ l := by
  induction l with
  | nil => simp [insertAscRec]
  | cons x xs ih =>
      simp only [insertAscRec]
      split <;> simp [ih, List.mem_cons] <;> tauto

theorem mem_sortAscAux {a : OutlineRec} (l : List OutlineRec) :
    ∀ acc, a ∈ sortAscAux acc l ↔ a ∈ acc ∨ a ∈ l := by
  induction l with
  | nil => intro acc; simp [sortAscAux]
  | cons x xs ih =>
      intro acc
      simp [sortAscAux, ih, mem_insertAscRec, List.mem_cons]
      tauto

theorem mem_sortEpisodeAsc {a : OutlineRec} {l : List OutlineRec} :
    a ∈ sortEpisodeAsc l ↔ a ∈ l := by
  simp [sortEpisodeAsc, mem_sortAscAux]

theorem insertDescRec_length (o : OutlineRec) (l : List OutlineRec) :
    (insertDescRec o l).length = l.length + 1 := by
  induction l with
  | nil => rfl
  | cons x xs ih => simp only [insertDescRec]; split <;> simp [ih]

theorem sortDescAux_length (l : List OutlineRec) :
    ∀ acc, (sortDescAux acc l).length = acc.length + l.length := by
  induction l with
  | nil => intro acc; simp [sortDescAux]
  | cons x xs ih =>
      intro acc
      simp [sortDescAux, ih, insertDescRec_length]
      omega

theorem sortEpisodeDesc_length (l : List OutlineRec) :
    (sortEpisodeDesc l).length = l.length := by
  simp [sortEpisodeDesc, sortDescAux_length]

theorem mem_insertDescRec {a o : OutlineRec} {l : List OutlineRec} :
    a ∈ insertDescRec o l ↔ a = o ∨ a ∈ l := by
  induction l with
  | nil => simp [insertDescRec]
  | cons x xs ih =>
      simp only [insertDescRec]
      split <;> simp [ih, List.mem_cons] <;> tauto

theorem mem_sortDescAux {a : OutlineRec} (l : List OutlineRec) :
    ∀ acc, a ∈ sortDescAux acc l ↔ a ∈ acc ∨ a ∈ l := by
  induction l with
  | nil => intro acc; simp [sortDescAux]
  | cons x xs ih =>
      intro acc
      simp [sortDescAux, ih, mem_insertDescRec, List.mem_cons]
      tauto

theorem mem_sortEpisodeDesc {a : OutlineRec} {l : List OutlineRec} :
    a ∈ sortEpisodeDesc l ↔ a ∈ l := by
  simp [sortEpisodeDesc, mem_sortDescAux]

end Toonflow

namespace Toonflow

/-! ### Decomposition of `clearOutlinesAndScripts` and `saveOutlineData` -/

theorem clearOutlinesAndScripts_snd (pid : Nat) (db : Db) :
    (clearOutlinesAndScripts pid db).2 =
      { db with
          outlines := db.outlines.filter (fun o => !(o.projectId == pid)),
          scripts := db.scripts.filter (fun s =>
            !(((projectOutlines pid db).map (fun o => o.id)).contains s.outlineId)) } := by
  unfold clearOutlinesAndScripts
  by_cases h : (((projectOutlines pid db).map (fun o => o.id)).isEmpty : Bool)
  · have hnil : projectOutlines pid db = [] := by
      have := List.isEmpty_iff.mp h
      exact List.map_eq_nil_iff.mp this
    have hall : ∀ o ∈ db.outlines, ¬(o.projectId == pid) = true := by
      intro o ho
      intro hpid
      have : o ∈ projectOutlines pid db := List.mem_filter.mpr ⟨ho, hpid⟩
      rw [hnil] at this
      cases this
    simp only [h, if_true]
    have h1 : db.outlines.filter (fun o => !(o.projectId == pid)) = db.outlines :=
      List.filter_eq_self.mpr (fun o ho => by simp [hall o ho])
    have h2 : db.scripts.filter (fun s =>
        !(((projectOutlines pid db).map (fun o => o.id)).contains s.outlineId)) = db.scripts :=
      List.filter_eq_self.mpr (fun s _ => by simp [hnil])
    rw [h1, h2]
  · simp only [Bool.not_eq_true] at h
    simp [h]

theorem saveOverwrite_decomp (pid : Nat) (eps : List EpisodeData) (st : Option Int) (db : Db) :
    (saveOutlineData pid eps true st db).db.outlines =
      db.outlines.filter (fun o => !(o.projectId == pid)) ++
        insertList pid db.nextOutlineId 1 eps ∧
    (saveOutlineData pid eps true st db).db.scripts =
      db.scripts.filter (fun s =>
        !(((projectOutlines pid db).map (fun o => o.id)).contains s.outlineId)) ++
      ((sortEpisodeDesc ((db.outlines.filter (fun o => !(o.projectId == pid)) ++
          insertList pid db.nextOutlineId 1 eps).filter
            (fun o => o.projectId == pid))).take eps.length).map
        (fun o => scriptFor pid (o.id, o.data)) := by
  have hclear := clearOutlinesAndScripts_snd pid db
  refine ⟨?_, ?_⟩
  · simp only [saveOutlineData, hclear, insertOutlines, createEmptyScripts, if_true]
  · simp only [saveOutlineData, hclear, insertOutlines, createEmptyScripts, if_true,
      insertList_length, projectOutlines, List.map_map]
    rfl

theorem saveAppend_outlines (pid : Nat) (eps : List EpisodeData) (db : Db) :
    (saveOutlineData pid eps false none db).db.outlines =
      db.outlines ++ insertList pid db.nextOutlineId (getMaxEpisode pid db + 1) eps := by
  simp [saveOutlineData, insertOutlines, createEmptyScripts]

/-! ### C1 -/

/-- C1: a `saveOutline` with `overwrite = false` and no `startEpisode`, on a
store whose maximum episode for the project is `M` (`0` when none exist),
leaves the pre-existing outline rows untouched and appends exactly one row
per input document, numbered contiguously `M+1 .. M+N`, with each stored
document's internal episode-index field rewritten to its assigned episode
number, whatever index the input document carried. -/
theorem c1_append_numbering (db : Db) (pid : Nat) (eps : List EpisodeData) :
    (saveOutlineData pid eps false none db).db.outlines.take db.outlines.length = db.outlines ∧
    ((saveOutlineData pid eps false none db).db.outlines.drop db.outlines.length).map
        (fun o => o.episode) = rangeInts (getMaxEpisode pid db + 1) eps.length ∧
    List.Forall₂
      (fun ep o =>
        o.data = Payload.parsed (EpisodeData.toDoc { ep with episodeIndex := o.episode }))
      eps ((saveOutlineData pid eps false none db).db.outlines.drop db.outlines.length) := by
  rw [saveAppend_outlines]
  refine ⟨List.take_left _ _, ?_, ?_⟩
  · rw [List.drop_left, insertList_map_episode]
  · rw [List.drop_left]
    exact insertList_forall2 pid eps db.nextOutlineId (getMaxEpisode pid db + 1)

/-! ### C8 -/

/-- C8: the tool set handed to every sub-agent turn is exactly the six
read/write chapter, storyline and outline tools; it contains neither of the
delete tools, nor asset generation, nor any of the three delegation tools. -/
theorem c8_subagent_toolset :
    invokeSubAgentTools =
      [ToolName.getChapter, ToolName.getStoryline, ToolName.saveStoryline,
       ToolName.getOutline, ToolName.saveOutline, ToolName.updateOutline] ∧
    ToolName.deleteStoryline ∉ invokeSubAgentTools ∧
    ToolName.deleteOutline ∉ invokeSubAgentTools ∧
    ToolName.generateAssets ∉ invokeSubAgentTools ∧
    ToolName.AI1 ∉ invokeSubAgentTools ∧
    ToolName.AI2 ∉ invokeSubAgentTools ∧
    ToolName.director ∉ invokeSubAgentTools := by
  refine ⟨rfl, ?_, ?_, ?_, ?_, ?_, ?_⟩ <;> decide

/-! ### C9 -/

/-- C9 counterexample: during a sub-agent turn of persona `AI1` whose stream
contains one tool call, not every emitted event is labeled with the acting
persona — the `toolCall` notification is labeled with the top-level tag
`"main"`. -/
theorem c9_counterexample :
    ¬ (∀ e ∈ (invokeSubAgentRun AgentType.AI1 [StreamItem.toolCall "saveOutline"]).1,
         eventLabel e = AgentLabel.persona AgentType.AI1) := by
  decide

theorem subAgentFold_labels (a : AgentType) (stream : List StreamItem) :
    ∀ acc : List EmittedEvent × String,
      (∀ e ∈ acc.1, amendedLabel a e) →
      ∀ e ∈ (stream.foldl (subAgentStep a) acc).1, amendedLabel a e := by
  induction stream with
  | nil => intro acc h; exact h
  | cons item rest ih =>
      intro acc h
      apply ih
      intro e he
      cases item with
      | toolCall t =>
          rcases List.mem_append.mp he with h1 | h1
          · exact h e h1
          · rcases List.mem_singleton.mp h1 with rfl
            exact rfl
      | textDelta s =>
          rcases List.mem_append.mp he with h1 | h1
          · exact h e h1
          · rcases List.mem_singleton.mp h1 with rfl
            exact rfl

/-- C9 (amended): during a sub-agent turn, the text-fragment events (and the
`transfer`/`subAgentEnd` bracketing events) are labeled with the acting
persona, but every `toolCall` notification is labeled with the fixed
top-level tag `"main"` instead. -/
theorem c9_amended_labels (a : AgentType) (stream : List StreamItem) :
    ∀ e ∈ (invokeSubAgentRun a stream).1, amendedLabel a e := by
  intro e he
  unfold invokeSubAgentRun at he
  rcases List.mem_append.mp he with h1 | h1
  · refine subAgentFold_labels a stream ([EmittedEvent.transfer a], "") ?_ e h1
    intro e' he'
    rcases List.mem_singleton.mp he' with rfl
    exact rfl
  · rcases List.mem_singleton.mp h1 with rfl
    exact rfl

/-- C9 witness: the amended labeling theorem applied to a concrete persona
and stream. -/
theorem c9_amended_witness :
    EmittedEvent.subAgentStream AgentType.AI1 "hi" ∈
      (invokeSubAgentRun AgentType.AI1 [StreamItem.textDelta "hi"]).1 ∧
    amendedLabel AgentType.AI1 (EmittedEvent.subAgentStream AgentType.AI1 "hi") :=
  ⟨by decide, c9_amended_labels AgentType.AI1 [StreamItem.textDelta "hi"]
      (EmittedEvent.subAgentStream AgentType.AI1 "hi") (by decide)⟩

end Toonflow

namespace Toonflow

/-! ### C10 -/

theorem defaultPayload_projectId (o : OutlineRec) :
    (defaultPayload o).projectId = o.projectId := rfl

theorem defaultPayload_episode (o : OutlineRec) :
    (defaultPayload o).episode = o.episode := rfl

theorem defaultPayload_parse (o : OutlineRec) :
    safeParseJson (defaultPayload o).data {} = safeParseJson o.data {} := by
  cases h : o.data <;> simp [defaultPayload, safeParseJson, h]

theorem insertAscRec_map (g : OutlineRec → OutlineRec)
    (hep : ∀ o, (g o).episode = o.episode) (o : OutlineRec) (l : List OutlineRec) :
    insertAscRec (g o) (l.map g) = (insertAscRec o l).map g := by
  induction l with
  | nil => rfl
  | cons x xs ih =>
      simp only [List.map_cons, insertAscRec, hep]
      split
      · rw [ih]
        rfl
      · rfl

theorem sortAscAux_map (g : OutlineRec → OutlineRec)
    (hep : ∀ o, (g o).episode = o.episode) (l : List OutlineRec) :
    ∀ acc, sortAscAux (acc.map g) (l.map g) = (sortAscAux acc l).map g := by
  induction l with
  | nil => intro acc; rfl
  | cons x xs ih =>
      intro acc
      simp only [List.map_cons, sortAscAux]
      rw [insertAscRec_map g hep, ih]

theorem findOutlines_map_defaultPayload (pid : Nat) (db : Db) :
    findOutlines pid { db with outlines := db.outlines.map defaultPayload } =
      (findOutlines pid db).map defaultPayload := by
  unfold findOutlines projectOutlines sortEpisodeAsc
  have h1 : (db.outlines.map defaultPayload).filter (fun o => o.projectId == pid) =
      (db.outlines.filter (fun o => o.projectId == pid)).map defaultPayload := by
    rw [List.filter_map]
    congr 1
  rw [show ({ db with outlines := db.outlines.map defaultPayload } : Db).outlines =
        db.outlines.map defaultPayload from rfl, h1]
  exact sortAscAux_map defaultPayload defaultPayload_episode _ []

theorem renderEpisodes_map_defaultPayload (l : List OutlineRec) :
    renderEpisodes (l.map defaultPayload) = renderEpisodes l := by
  unfold renderEpisodes
  rw [List.map_map]
  exact List.map_congr_left (fun r _ => by
    show RenderedEpisode.mk (defaultPayload r).id (defaultPayload r).episode
          (safeParseJson (defaultPayload r).data {}) =
        RenderedEpisode.mk r.id r.episode (safeParseJson r.data {})
    rw [defaultPayload_parse]
    rfl)

/-- C10: a stored outline whose `data` payload does not parse degrades
gracefully everywhere it is read: `getOutline`'s rendering of the store is
unchanged when every malformed payload is replaced by an explicitly stored
empty document (so the episode renders with empty/default fields);
`createEmptyScripts` names the script with an empty episode index (`第集`);
and asset extraction treats the outline as contributing no characters, props
or scenes.  All three readers are total — none fails on a malformed payload. -/
theorem c10_malformed_graceful :
    (∀ (b : Bool) (pid : Nat) (db : Db),
       getOutlineText b pid db =
         getOutlineText b pid { db with outlines := db.outlines.map defaultPayload }) ∧
    (∀ (pid i : Nat),
       scriptFor pid (i, Payload.malformed) =
         { name := "第集", content := "", projectId := pid, outlineId := i }) ∧
    (∀ (pre post : List OutlineRec) (i pj : Nat) (e : Int),
       extractAssetsFromOutlines (pre ++ OutlineRec.mk i pj e Payload.malformed :: post) =
         extractAssetsFromOutlines (pre ++ post)) := by
  refine ⟨?_, ?_, ?_⟩
  · intro b pid db
    unfold getOutlineText
    rw [findOutlines_map_defaultPayload]
    have hie : ((findOutlines pid db).map defaultPayload).isEmpty =
        (findOutlines pid db).isEmpty := by
      cases findOutlines pid db <;> rfl
    rw [hie, renderEpisodes_map_defaultPayload]
  · intro pid i
    rfl
  · intro pre post i pj e
    have hstep : ∀ acc : Extracted,
        accumulateStep acc (OutlineRec.mk i pj e Payload.malformed) = acc := by
      intro acc
      simp [accumulateStep, safeParseJson]
    unfold extractAssetsFromOutlines accumulateAssets
    rw [List.foldl_append, List.foldl_append, List.foldl_cons, hstep]

end Toonflow

namespace Toonflow

/-! ### C3: the script-linking step at an overlapping `startEpisode` -/

/-- C3: evaluation of the code at the failing input.  On a project holding
episodes 1 and 2 (outline ids 0 and 1), a `saveOutline` with
`overwrite = false`, `startEpisode = 1` and one episode document inserts
outline id 2 with episode number 1 — but the single script it creates is
linked to the pre-existing outline id 1 and named `第2集` after that
outline's episode index: the newly inserted outline gets no script and a
pre-existing outline gains a second one, contradicting the claimed 1:1
newly-inserted-outline → script correspondence. -/
theorem c3_script_link_bug :
    overlapSave.db.outlines.map (fun o => (o.id, o.episode)) = [(0, 1), (1, 2), (2, 1)] ∧
    overlapSave.insertedCount = 1 ∧
    overlapSave.scriptCount = 1 ∧
    overlapSave.db.scripts.getLast? = some (ScriptRec.mk "第2集" "" 1 1) ∧
    overlapSave.db.scripts.filter (fun s => s.outlineId == 2) = [] ∧
    (overlapSave.db.scripts.filter (fun s => s.outlineId == 1)).length = 2 := by
  decide

/-! ### C4: the contiguity invariant -/

theorem le_foldl_max (es : List Int) : ∀ e : Int, e ≤ es.foldl max e := by
  induction es with
  | nil => intro e; exact le_refl e
  | cons x xs ih =>
      intro e
      exact le_trans (le_max_left e x) (ih (max e x))

theorem foldl_max_le (es : List Int) : ∀ e x : Int, x ∈ e :: es → x ≤ es.foldl max e := by
  induction es with
  | nil =>
      intro e x h
      rcases List.mem_singleton.mp h with rfl
      exact le_refl x
  | cons y ys ih =>
      intro e x h
      simp only [List.foldl_cons]
      rcases List.mem_cons.mp h with rfl | h
      · exact le_trans (le_max_left x y) (le_foldl_max ys (max x y))
      · rcases List.mem_cons.mp h with rfl | h
        · exact le_trans (le_max_right e x) (le_foldl_max ys (max e x))
        · exact ih (max e y) x (List.mem_cons_of_mem _ h)

theorem foldl_max_mem (es : List Int) : ∀ e : Int, es.foldl max e ∈ e :: es := by
  induction es with
  | nil => intro e; exact List.mem_singleton.mpr rfl
  | cons x xs ih =>
      intro e
      simp only [List.foldl_cons]
      rcases List.mem_cons.mp (ih (max e x)) with h | h
      · rcases max_choice e x with h2 | h2 <;> rw [h, h2]
        · exact List.mem_cons_self _ _
        · exact List.mem_cons_of_mem _ (List.mem_cons_self _ _)
      · exact List.mem_cons_of_mem _ (List.mem_cons_of_mem _ h)

theorem getMaxEpisode_spec (pid : Nat) (db : Db) (h : projectOutlines pid db ≠ []) :
    getMaxEpisode pid db ∈ (projectOutlines pid db).map (fun o => o.episode) ∧
    ∀ x ∈ (projectOutlines pid db).map (fun o => o.episode), x ≤ getMaxEpisode pid db := by
  unfold getMaxEpisode
  cases hm : (projectOutlines pid db).map (fun o => o.episode) with
  | nil =>
      exact absurd (List.map_eq_nil_iff.mp hm) h
  | cons e es =>
      refine ⟨?_, ?_⟩
      · exact foldl_max_mem es e
      · intro x hx
        exact foldl_max_le es e x hx

theorem saveOverwrite_project_episodes (pid : Nat) (eps : List EpisodeData)
    (st : Option Int) (db : Db) :
    (projectOutlines pid (saveOutlineData pid eps true st db).db).map (fun o => o.episode) =
      rangeInts 1 eps.length := by
  have h := (saveOverwrite_decomp pid eps st db).1
  unfold projectOutlines
  rw [h, List.filter_append, filter_not_filter, insertList_filter_pid, List.nil_append,
    insertList_map_episode]

theorem saveAppend_project_outlines (pid : Nat) (eps : List EpisodeData) (db : Db) :
    projectOutlines pid (saveOutlineData pid eps false none db).db =
      projectOutlines pid db ++
        insertList pid db.nextOutlineId (getMaxEpisode pid db + 1) eps := by
  unfold projectOutlines
  rw [saveAppend_outlines, List.filter_append, insertList_filter_pid]

theorem saveAppend_contiguous (pid : Nat) (eps : List EpisodeData) (db : Db)
    (hc : contiguousProj pid db) :
    contiguousProj pid (saveOutlineData pid eps false none db).db := by
  obtain ⟨k, hperm⟩ := hc
  have hproj := saveAppend_project_outlines pid eps db
  by_cases hnil : projectOutlines pid db = []
  · have hmax : getMaxEpisode pid db = 0 := by
      unfold getMaxEpisode
      rw [hnil]
      rfl
    refine ⟨1, ?_⟩
    rw [hproj, hnil, List.nil_append, insertList_map_episode, hmax,
      insertList_length pid eps]
    exact List.Perm.refl _
  · obtain ⟨hmem, hle⟩ := getMaxEpisode_spec pid db hnil
    set M := getMaxEpisode pid db with hM
    set m := (projectOutlines pid db).length with hm
    have hlen : ((projectOutlines pid db).map (fun o => o.episode)).length = m := by
      rw [List.length_map]
    have hmpos : 1 ≤ m := by
      have : projectOutlines pid db ≠ [] := hnil
      cases hml : projectOutlines pid db with
      | nil => exact absurd hml this
      | cons a l => rw [hm, hml]; simp
    have hMin : M ∈ rangeInts k m := hperm.mem_iff.mp hmem
    have hMub : (k + m - 1 : Int) ≤ M := by
      have hmem2 : (k + m - 1 : Int) ∈ rangeInts k m := by
        rw [mem_rangeInts]
        constructor <;> [omega; omega]
      exact hle _ (hperm.symm.mem_iff.mp hmem2)
    have hMeq : M = k + m - 1 := by
      rw [mem_rangeInts] at hMin
      omega
    refine ⟨k, ?_⟩
    rw [hproj, List.map_append, insertList_map_episode, List.length_append,
      insertList_length]
    have hrw : M + 1 = k + (m : Int) := by omega
    rw [hrw, ← rangeInts_append m eps.length k]
    exact hperm.append (List.Perm.refl _)

theorem updateOutline_preserves_keys (pid oid : Nat) (d : EpisodeData) (db : Db) :
    ((updateOutlineData pid oid d db).2.outlines).map (fun o => (o.id, o.projectId, o.episode)) =
      db.outlines.map (fun o => (o.id, o.projectId, o.episode)) := by
  unfold updateOutlineData
  cases h : (db.outlines.filter (fun o => o.id == oid && o.projectId == pid)).head? with
  | none => rfl
  | some x =>
      simp only
      rw [List.map_map]
      exact List.map_congr_left (fun o _ => by
        by_cases hid : o.id = oid <;> simp [hid])

/-- C4 counterexample: a state reachable by two `saveOutline` calls from the
empty store (an overwrite save of episodes 1–2, then an append with
`startEpisode = 5`) holds episode numbers `1, 2, 5` — not a contiguous
gap-free run, refuting the claim that every outline-changing operation
preserves the invariant. -/
theorem c4_counterexample : ¬ contiguousProj 1 dbGap := by
  intro h
  obtain ⟨k, hp⟩ := h
  have h1 : (projectOutlines 1 dbGap).map (fun o => o.episode) = [1, 2, 5] := by decide
  have h2 : (projectOutlines 1 dbGap).length = 3 := by decide
  rw [h1, h2] at hp
  have m1 : (1 : Int) ∈ rangeInts k 3 := hp.mem_iff.mp (by decide)
  have m5 : (5 : Int) ∈ rangeInts k 3 := hp.mem_iff.mp (by decide)
  rw [mem_rangeInts] at m1 m5
  omega

/-- C4 (amended): the contiguity invariant is maintained by `saveOutline`
with `overwrite = true` (episodes become exactly `1..N`), by `saveOutline`
with `overwrite = false` and no `startEpisode` (contiguity is preserved),
and by `updateOutline` (ids, project keys and episode numbers are untouched)
— but not by an explicit `startEpisode` (nor by `deleteOutline`, which
removes rows without renumbering), as the counterexample shows. -/
theorem c4_amended_contiguity (db : Db) (pid : Nat) (eps : List EpisodeData)
    (st : Option Int) (oid : Nat) (d : EpisodeData) (hc : contiguousProj pid db) :
    ((projectOutlines pid (saveOutlineData pid eps true st db).db).map (fun o => o.episode) =
       rangeInts 1 eps.length) ∧
    contiguousProj pid (saveOutlineData pid eps false none db).db ∧
    ((updateOutlineData pid oid d db).2.outlines.map (fun o => (o.id, o.projectId, o.episode)) =
       db.outlines.map (fun o => (o.id, o.projectId, o.episode))) :=
  ⟨saveOverwrite_project_episodes pid eps st db,
   saveAppend_contiguous pid eps db hc,
   updateOutline_preserves_keys pid oid d db⟩

/-- C4 witness: the amended theorem applied to the empty store. -/
theorem c4_amended_witness :
    contiguousProj 1 emptyDb ∧
    (((projectOutlines 1 (saveOutlineData 1 [sampleEpisode 7] true none emptyDb).db).map
        (fun o => o.episode) = rangeInts 1 1) ∧
     contiguousProj 1 (saveOutlineData 1 [sampleEpisode 7] false none emptyDb).db ∧
     ((updateOutlineData 1 0 (sampleEpisode 7) emptyDb).2.outlines.map
        (fun o => (o.id, o.projectId, o.episode)) =
      emptyDb.outlines.map (fun o => (o.id, o.projectId, o.episode)))) :=
  ⟨⟨1, by decide⟩,
   c4_amended_contiguity emptyDb 1 [sampleEpisode 7] none 0 (sampleEpisode 7) ⟨1, by decide⟩⟩

end Toonflow

namespace Toonflow

/-! ### C2 -/

/-- C2: a `saveOutline` with `overwrite = true` and N episode documents, on
a store where every script of the project is attached to one of the
project's outlines and all outline ids are below the auto-increment counter,
leaves the project with outlines numbered exactly `1..N`, exactly N scripts,
and with every previously existing outline of the project — and every script
attached to those outlines — deleted. -/
theorem c2_overwrite_clears (db : Db) (pid : Nat) (eps : List EpisodeData) (st : Option Int)
    (h1 : ∀ s ∈ db.scripts, s.projectId = pid →
            s.outlineId ∈ (projectOutlines pid db).map (fun o => o.id))
    (h2 : ∀ o ∈ db.outlines, o.id < db.nextOutlineId) :
    ((projectOutlines pid (saveOutlineData pid eps true st db).db).map (fun o => o.episode) =
        rangeInts 1 eps.length) ∧
    ((saveOutlineData pid eps true st db).db.scripts.filter
        (fun s => s.projectId == pid)).length = eps.length ∧
    (∀ o ∈ db.outlines, o.projectId = pid →
        o ∉ (saveOutlineData pid eps true st db).db.outlines) ∧
    (∀ s ∈ db.scripts, s.outlineId ∈ (projectOutlines pid db).map (fun o => o.id) →
        s ∉ (saveOutlineData pid eps true st db).db.scripts) := by
  obtain ⟨ho, hs⟩ := saveOverwrite_decomp pid eps st db
  have hfl : (db.outlines.filter (fun o => !(o.projectId == pid)) ++
      insertList pid db.nextOutlineId 1 eps).filter (fun o => o.projectId == pid) =
      insertList pid db.nextOutlineId 1 eps := by
    rw [List.filter_append, filter_not_filter, insertList_filter_pid, List.nil_append]
  refine ⟨saveOverwrite_project_episodes pid eps st db, ?_, ?_, ?_⟩
  · rw [hs, hfl, List.filter_append]
    have hold : ((db.scripts.filter (fun s =>
        !(((projectOutlines pid db).map (fun o => o.id)).contains s.outlineId))).filter
          (fun s => s.projectId == pid)) = [] := by
      rw [List.filter_eq_nil_iff]
      intro s hsmem hpid
      obtain ⟨hmem, hcond⟩ := List.mem_filter.mp hsmem
      have hpid' : s.projectId = pid := by
        exact beq_iff_eq.mp hpid
      have hin := h1 s hmem hpid'
      rw [Bool.not_eq_true', ← Bool.not_eq_true] at hcond
      exact hcond (List.elem_iff.mpr hin)
    have hnew : (((sortEpisodeDesc (insertList pid db.nextOutlineId 1 eps)).take
        eps.length).map (fun o => scriptFor pid (o.id, o.data))).filter
          (fun s => s.projectId == pid) =
        ((sortEpisodeDesc (insertList pid db.nextOutlineId 1 eps)).take
          eps.length).map (fun o => scriptFor pid (o.id, o.data)) := by
      apply List.filter_eq_self.mpr
      intro s hsmem
      obtain ⟨o, _, rfl⟩ := List.mem_map.mp hsmem
      exact beq_self_eq_true pid
    rw [hold, hnew, List.nil_append, List.length_map, List.length_take,
      sortEpisodeDesc_length, insertList_length]
    exact Nat.min_self eps.length
  · intro o hoin hpid hcontra
    rw [ho] at hcontra
    rcases List.mem_append.mp hcontra with hmem | hmem
    · obtain ⟨_, hcond⟩ := List.mem_filter.mp hmem
      rw [hpid] at hcond
      simp at hcond
    · have := insertList_id_ge pid eps db.nextOutlineId 1 o hmem
      have := h2 o hoin
      omega
  · intro s hsin hids hcontra
    rw [hs] at hcontra
    rcases List.mem_append.mp hcontra with hmem | hmem
    · obtain ⟨_, hcond⟩ := List.mem_filter.mp hmem
      rw [Bool.not_eq_true', ← Bool.not_eq_true] at hcond
      exact hcond (List.elem_iff.mpr hids)
    · rw [hfl] at hmem
      obtain ⟨o, homem, hseq⟩ := List.mem_map.mp hmem
      have hoin2 : o ∈ insertList pid db.nextOutlineId 1 eps :=
        mem_sortEpisodeDesc.mp (List.take_subset _ _ homem)
      have hge := insertList_id_ge pid eps db.nextOutlineId 1 o hoin2
      have hsid : s.outlineId = o.id := by
        rw [← hseq]
        rfl
      obtain ⟨o2, ho2mem, ho2id⟩ := List.mem_map.mp hids
      have ho2in : o2 ∈ db.outlines := (List.mem_filter.mp ho2mem).1
      have := h2 o2 ho2in
      omega

/-- C2 witness: the theorem applied to a concrete store holding one old
outline with its script for project 1 and one outline of another project. -/
theorem c2_overwrite_witness :
    (∀ s ∈ (Db.mk [OutlineRec.mk 0 1 1 Payload.malformed, OutlineRec.mk 1 2 1 Payload.malformed]
        [ScriptRec.mk "第1集" "" 1 0] [] 2 0).scripts, s.projectId = 1 →
        s.outlineId ∈ (projectOutlines 1 (Db.mk
          [OutlineRec.mk 0 1 1 Payload.malformed, OutlineRec.mk 1 2 1 Payload.malformed]
          [ScriptRec.mk "第1集" "" 1 0] [] 2 0)).map (fun o => o.id)) ∧
    (∀ o ∈ (Db.mk [OutlineRec.mk 0 1 1 Payload.malformed, OutlineRec.mk 1 2 1 Payload.malformed]
        [ScriptRec.mk "第1集" "" 1 0] [] 2 0).outlines, o.id < 2) ∧
    (((projectOutlines 1 (saveOutlineData 1 [sampleEpisode 9, sampleEpisode 8] true none
        (Db.mk [OutlineRec.mk 0 1 1 Payload.malformed, OutlineRec.mk 1 2 1 Payload.malformed]
          [ScriptRec.mk "第1集" "" 1 0] [] 2 0)).db).map (fun o => o.episode) =
        rangeInts 1 2) ∧
     ((saveOutlineData 1 [sampleEpisode 9, sampleEpisode 8] true none
        (Db.mk [OutlineRec.mk 0 1 1 Payload.malformed, OutlineRec.mk 1 2 1 Payload.malformed]
          [ScriptRec.mk "第1集" "" 1 0] [] 2 0)).db.scripts.filter
            (fun s => s.projectId == 1)).length = 2 ∧
     (∀ o ∈ (Db.mk [OutlineRec.mk 0 1 1 Payload.malformed, OutlineRec.mk 1 2 1 Payload.malformed]
          [ScriptRec.mk "第1集" "" 1 0] [] 2 0).outlines, o.projectId = 1 →
        o ∉ (saveOutlineData 1 [sampleEpisode 9, sampleEpisode 8] true none
          (Db.mk [OutlineRec.mk 0 1 1 Payload.malformed, OutlineRec.mk 1 2 1 Payload.malformed]
            [ScriptRec.mk "第1集" "" 1 0] [] 2 0)).db.outlines) ∧
     (∀ s ∈ (Db.mk [OutlineRec.mk 0 1 1 Payload.malformed, OutlineRec.mk 1 2 1 Payload.malformed]
          [ScriptRec.mk "第1集" "" 1 0] [] 2 0).scripts,
        s.outlineId ∈ (projectOutlines 1 (Db.mk
            [OutlineRec.mk 0 1 1 Payload.malformed, OutlineRec.mk 1 2 1 Payload.malformed]
            [ScriptRec.mk "第1集" "" 1 0] [] 2 0)).map (fun o => o.id) →
        s ∉ (saveOutlineData 1 [sampleEpisode 9, sampleEpisode 8] true none
          (Db.mk [OutlineRec.mk 0 1 1 Payload.malformed, OutlineRec.mk 1 2 1 Payload.malformed]
            [ScriptRec.mk "第1集" "" 1 0] [] 2 0)).db.scripts)) :=
  ⟨by decide, by decide,
   c2_overwrite_clears
     (Db.mk [OutlineRec.mk 0 1 1 Payload.malformed, OutlineRec.mk 1 2 1 Payload.malformed]
       [ScriptRec.mk "第1集" "" 1 0] [] 2 0)
     1 [sampleEpisode 9, sampleEpisode 8] none (by decide) (by decide)⟩

end Toonflow

namespace Toonflow

/-! ### C7 -/

theorem contains_cons_eq (x a : Nat) (l : List Nat) :
    (a :: l).contains x = ((x == a) || l.contains x) := rfl

theorem deleteOutlineData_cons_some (pid id : Nat) (rest : List Nat) (db db2 : Db)
    (h : deleteOutlineOne id pid db = some db2) :
    deleteOutlineData pid (id :: rest) db =
      (SettledStatus.fulfilled :: (deleteOutlineData pid rest db2).1,
       (deleteOutlineData pid rest db2).2) := by
  conv_lhs => unfold deleteOutlineData
  rw [h]

theorem deleteOutlineData_cons_none (pid id : Nat) (rest : List Nat) (db : Db)
    (h : deleteOutlineOne id pid db = none) :
    deleteOutlineData pid (id :: rest) db =
      (SettledStatus.rejected :: (deleteOutlineData pid rest db).1,
       (deleteOutlineData pid rest db).2) := by
  conv_lhs => unfold deleteOutlineData
  rw [h]

theorem contains_projIds_iff (pid x : Nat) (db : Db) :
    (((projectOutlines pid db).map (fun o => o.id)).contains x = true) ↔
      ∃ o ∈ db.outlines, o.projectId = pid ∧ o.id = x := by
  rw [List.elem_iff]
  constructor
  · intro h
    obtain ⟨o, homem, hid⟩ := List.mem_map.mp h
    obtain ⟨hin, hpid⟩ := List.mem_filter.mp homem
    exact ⟨o, hin, beq_iff_eq.mp hpid, hid⟩
  · rintro ⟨o, hin, hpid, rfl⟩
    exact List.mem_map.mpr ⟨o, List.mem_filter.mpr ⟨hin, beq_iff_eq.mpr hpid⟩, rfl⟩

theorem deleteOne_exists_iff (id pid : Nat) (db : Db) :
    (db.outlines.any (fun o => o.id == id && o.projectId == pid) = true) ↔
      ∃ o ∈ db.outlines, o.projectId = pid ∧ o.id = id := by
  rw [List.any_eq_true]
  constructor
  · rintro ⟨o, hin, hcond⟩
    rw [Bool.and_eq_true, beq_iff_eq, beq_iff_eq] at hcond
    exact ⟨o, hin, hcond.2, hcond.1⟩
  · rintro ⟨o, hin, hpid, hid⟩
    exact ⟨o, hin, by rw [Bool.and_eq_true, beq_iff_eq, beq_iff_eq]; exact ⟨hid, hpid⟩⟩

/-- C7: every id in a `deleteOutline` batch is settled independently — the
returned status vector has one entry per requested id, an id's entry is
`fulfilled` exactly when that outline existed for the project (a
non-existent id is reported as `rejected` for that id alone), and the final
store has every requested existing outline removed with its scripts
cascaded, regardless of the failures of other ids. -/
theorem c7_delete_independent (pid : Nat) (ids : List Nat) (db : Db) (hnd : ids.Nodup) :
    (deleteOutlineData pid ids db).1 =
      ids.map (fun i =>
        if ((projectOutlines pid db).map (fun o => o.id)).contains i then
          SettledStatus.fulfilled else SettledStatus.rejected) ∧
    (deleteOutlineData pid ids db).1.length = ids.length ∧
    (deleteOutlineData pid ids db).2.outlines =
      db.outlines.filter (fun o => !(o.projectId == pid && ids.contains o.id)) ∧
    (deleteOutlineData pid ids db).2.scripts =
      db.scripts.filter (fun s =>
        !(ids.contains s.outlineId &&
          ((projectOutlines pid db).map (fun o => o.id)).contains s.outlineId)) := by
  induction ids generalizing db with
  | nil =>
      refine ⟨rfl, rfl, ?_, ?_⟩
      · symm
        apply List.filter_eq_self.mpr
        intro o _
        simp
      · symm
        apply List.filter_eq_self.mpr
        intro s _
        simp
  | cons id rest ih =>
      obtain ⟨hid, hrest⟩ := List.nodup_cons.mp hnd
      by_cases hex : (db.outlines.any (fun o => o.id == id && o.projectId == pid) : Bool)
      · -- the outline exists: this id is deleted, then the rest proceed on
        -- the shrunk store
        have hdel : deleteOutlineOne id pid db =
            some { db with
                     outlines := db.outlines.filter
                       (fun o => !(o.id == id && o.projectId == pid)),
                     scripts := db.scripts.filter (fun s => !(s.outlineId == id)) } := by
          unfold deleteOutlineOne
          rw [if_pos hex]
        have hstep := deleteOutlineData_cons_some pid id rest db _ hdel
        set db2 : Db :=
          { db with
              outlines := db.outlines.filter (fun o => !(o.id == id && o.projectId == pid)),
              scripts := db.scripts.filter (fun s => !(s.outlineId == id)) } with hdb2
        obtain ⟨ihs, ihl, iho, ihsc⟩ := ih db2 hrest
        have hcontains : ∀ x, x ≠ id →
            (((projectOutlines pid db2).map (fun o => o.id)).contains x =
             ((projectOutlines pid db).map (fun o => o.id)).contains x) := by
          intro x hx
          rw [Bool.eq_iff_iff, contains_projIds_iff, contains_projIds_iff]
          constructor
          · rintro ⟨o, hin, hpid, rfl⟩
            exact ⟨o, (List.mem_filter.mp hin).1, hpid, rfl⟩
          · rintro ⟨o, hin, hpid, rfl⟩
            refine ⟨o, List.mem_filter.mpr ⟨hin, ?_⟩, hpid, rfl⟩
            have : (o.id == id) = false := beq_eq_false_iff_ne.mpr hx
            simp [this]
        have hheadmem : ((projectOutlines pid db).map (fun o => o.id)).contains id = true := by
          rw [contains_projIds_iff]
          obtain ⟨o, hin, hpid, hoid⟩ := (deleteOne_exists_iff id pid db).mp hex
          exact ⟨o, hin, hpid, hoid⟩
        refine ⟨?_, ?_, ?_, ?_⟩
        · rw [hstep]
          simp only [List.map_cons, hheadmem, if_true]
          congr 1
          rw [ihs]
          exact List.map_congr_left (fun x hxin => by
            have hxne : x ≠ id := fun hcon => hid (hcon ▸ hxin)
            rw [hcontains x hxne])
        · rw [hstep]
          simp only [List.length_cons, ihl, List.length_map]
        · rw [hstep]
          simp only
          rw [iho, hdb2]
          simp only
          rw [List.filter_filter]
          apply List.filter_congr
          intro o _
          rw [Bool.eq_iff_iff]
          by_cases hp : o.projectId = pid <;> by_cases hio : o.id = id <;>
            simp [hp, hio, List.elem_iff]
        · rw [hstep]
          simp only
          rw [ihsc, hdb2]
          simp only
          rw [List.filter_filter]
          apply List.filter_congr
          intro s _
          by_cases hio : s.outlineId = id
          · subst hio
            simp only [contains_cons_eq, beq_self_eq_true, Bool.true_or, Bool.true_and,
              Bool.not_true, Bool.and_false, hheadmem]
          · have h1 : (s.outlineId == id) = false := beq_eq_false_iff_ne.mpr hio
            have h2 := hcontains s.outlineId hio
            simp only [contains_cons_eq, h1, Bool.false_or, Bool.not_false, Bool.and_true, h2]
      · -- the outline does not exist: this id is rejected and the rest are
        -- unaffected
        have hdel : deleteOutlineOne id pid db = none := by
          unfold deleteOutlineOne
          rw [if_neg hex]
        have hstep := deleteOutlineData_cons_none pid id rest db hdel
        obtain ⟨ihs, ihl, iho, ihsc⟩ := ih db hrest
        have hheadno : ((projectOutlines pid db).map (fun o => o.id)).contains id = false := by
          rw [Bool.eq_false_iff]
          intro hcon
          exact hex ((deleteOne_exists_iff id pid db).mpr
            ((contains_projIds_iff pid id db).mp hcon))
        have hnotex : ∀ o ∈ db.outlines, o.projectId = pid → o.id ≠ id := by
          intro o hin hpid hcon
          exact hex ((deleteOne_exists_iff id pid db).mpr ⟨o, hin, hpid, hcon⟩)
        refine ⟨?_, ?_, ?_, ?_⟩
        · rw [hstep]
          simp only [List.map_cons, hheadno, Bool.false_eq_true, if_false]
          congr 1
        · rw [hstep]
          simp only [List.length_cons, ihl]
        · rw [hstep]
          simp only
          rw [iho]
          apply List.filter_congr
          intro o hin
          rw [Bool.eq_iff_iff]
          by_cases hp : o.projectId = pid
          · have hne : o.id ≠ id := hnotex o hin hp
            simp [hp, hne, List.elem_iff]
          · simp [hp]
        · rw [hstep]
          simp only
          rw [ihsc]
          apply List.filter_congr
          intro s _
          by_cases hio : s.outlineId = id
          · subst hio
            simp only [hheadno, Bool.and_false, Bool.not_false]
          · have h1 : (s.outlineId == id) = false := beq_eq_false_iff_ne.mpr hio
            simp only [contains_cons_eq, h1, Bool.false_or]

/-- C7 witness: a concrete batch mixing two existing ids with a non-existent
one — the middle id is rejected, both others are deleted. -/
theorem c7_delete_witness :
    ([0, 99, 1] : List Nat).Nodup ∧
    ((deleteOutlineData 1 [0, 99, 1] dbTwoEpisodes).1 =
        [0, 99, 1].map (fun i =>
          if ((projectOutlines 1 dbTwoEpisodes).map (fun o => o.id)).contains i then
            SettledStatus.fulfilled else SettledStatus.rejected) ∧
      (deleteOutlineData 1 [0, 99, 1] dbTwoEpisodes).1.length = ([0, 99, 1] : List Nat).length ∧
      (deleteOutlineData 1 [0, 99, 1] dbTwoEpisodes).2.outlines =
        dbTwoEpisodes.outlines.filter
          (fun o => !(o.projectId == 1 && ([0, 99, 1] : List Nat).contains o.id)) ∧
      (deleteOutlineData 1 [0, 99, 1] dbTwoEpisodes).2.scripts =
        dbTwoEpisodes.scripts.filter (fun s =>
          !(([0, 99, 1] : List Nat).contains s.outlineId &&
            ((projectOutlines 1 dbTwoEpisodes).map (fun o => o.id)).contains s.outlineId))) :=
  ⟨by decide, c7_delete_independent 1 [0, 99, 1] dbTwoEpisodes (by decide)⟩

end Toonflow

namespace Toonflow

/-! ### Lemmas about `uniqueByName` -/

theorem findName_cons (n : String) (x : AssetItem) (l : List AssetItem) :
    findName n (x :: l) = if x.name == n then x :: findName n l else findName n l := by
  unfold findName
  rw [List.filter_cons]

theorem findName_mapReplace_eq (item : AssetItem) (n : String) (hn : item.name = n) :
    ∀ acc : List AssetItem,
      findName n (acc.map (fun x => if x.name == item.name then item else x)) =
        (findName n acc).map (fun _ => item) := by
  intro acc
  induction acc with
  | nil => rfl
  | cons x xs ih =>
      rw [List.map_cons]
      by_cases hx : x.name = item.name
      · have hfx : (if (x.name == item.name) = true then item else x) = item :=
          if_pos (beq_iff_eq.mpr hx)
        have hxn : (x.name == n) = true := beq_iff_eq.mpr (hx.trans hn)
        have hin : (item.name == n) = true := beq_iff_eq.mpr hn
        rw [hfx, findName_cons, findName_cons, hin, hxn, if_pos rfl, if_pos rfl,
          List.map_cons, ih]
      · have hfx : (if (x.name == item.name) = true then item else x) = x :=
          if_neg (by rw [beq_iff_eq]; exact hx)
        have hxn : (x.name == n) = false :=
          beq_eq_false_iff_ne.mpr (fun hcon => hx (hcon.trans hn.symm))
        rw [hfx, findName_cons, findName_cons, hxn,
          if_neg Bool.false_ne_true, if_neg Bool.false_ne_true, ih]

theorem findName_mapReplace_ne (item : AssetItem) (n : String) (hn : ¬ item.name = n) :
    ∀ acc : List AssetItem,
      findName n (acc.map (fun x => if x.name == item.name then item else x)) =
        findName n acc := by
  intro acc
  induction acc with
  | nil => rfl
  | cons x xs ih =>
      rw [List.map_cons]
      by_cases hx : x.name = item.name
      · have hfx : (if (x.name == item.name) = true then item else x) = item :=
          if_pos (beq_iff_eq.mpr hx)
        have h1 : (item.name == n) = false := beq_eq_false_iff_ne.mpr hn
        have h2 : (x.name == n) = false := beq_eq_false_iff_ne.mpr (by rw [hx]; exact hn)
        rw [hfx, findName_cons, findName_cons, h1, h2,
          if_neg Bool.false_ne_true, if_neg Bool.false_ne_true, ih]
      · have hfx : (if (x.name == item.name) = true then item else x) = x :=
          if_neg (by rw [beq_iff_eq]; exact hx)
        rw [hfx, findName_cons, findName_cons, ih]

theorem any_name_iff (acc : List AssetItem) (m : String) :
    (acc.any (fun x => x.name == m) = true) ↔ findName m acc ≠ [] := by
  rw [List.any_eq_true]
  constructor
  · rintro ⟨x, hx, hxm⟩
    intro hnil
    have : x ∈ findName m acc := List.mem_filter.mpr ⟨hx, hxm⟩
    rw [hnil] at this
    cases this
  · intro hne
    cases hf : findName m acc with
    | nil => exact absurd hf hne
    | cons y ys =>
        have : y ∈ findName m acc := by rw [hf]; exact List.mem_cons_self _ _
        obtain ⟨hy, hym⟩ := List.mem_filter.mp this
        exact ⟨y, hy, hym⟩

theorem mapInsert_findName (item : AssetItem) (n : String) (acc : List AssetItem)
    (h : (findName n acc).length ≤ 1) :
    findName n (mapInsert acc item) =
      if item.name == n then [item] else findName n acc := by
  unfold mapInsert
  by_cases hany : (acc.any (fun x => x.name == item.name) = true)
  · rw [if_pos hany]
    by_cases hn : item.name = n
    · rw [findName_mapReplace_eq item n hn acc, if_pos (beq_iff_eq.mpr hn)]
      have hne : findName item.name acc ≠ [] := (any_name_iff acc item.name).mp hany
      rw [hn] at hne
      cases hf : findName n acc with
      | nil => exact absurd hf hne
      | cons y ys =>
          rw [hf] at h
          cases ys with
          | nil => rfl
          | cons z zs => simp at h
    · rw [findName_mapReplace_ne item n hn acc, if_neg (by simp [hn])]
  · rw [if_neg hany]
    unfold findName
    rw [List.filter_append]
    by_cases hn : item.name = n
    · have hnil : findName n acc = [] := by
        by_contra hne
        apply hany
        rw [any_name_iff, hn]
        exact hne
      unfold findName at hnil
      rw [hnil, List.nil_append, if_pos (beq_iff_eq.mpr hn)]
      show List.filter (fun x => x.name == n) [item] = [item]
      rw [List.filter_cons, if_pos (beq_iff_eq.mpr hn)]
      rfl
    · rw [if_neg (by simp [hn])]
      show List.filter (fun x => x.name == n) acc ++
          List.filter (fun x => x.name == n) [item] = List.filter (fun x => x.name == n) acc
      rw [List.filter_cons, if_neg (by simp [hn])]
      rw [List.filter_nil, List.append_nil]

theorem mapInsert_findName_le (item : AssetItem) (n : String) (acc : List AssetItem)
    (h : (findName n acc).length ≤ 1) :
    (findName n (mapInsert acc item)).length ≤ 1 := by
  rw [mapInsert_findName item n acc h]
  split
  · simp
  · exact h

theorem getLast?_cons_of_some {α : Type} (a x : α) (l : List α) (h : l.getLast? = some x) :
    (a :: l).getLast? = some x := by
  cases l with
  | nil => cases h
  | cons b bs => rw [List.getLast?_cons_cons, h]

theorem getLast?_none_iff {α : Type} (l : List α) : l.getLast? = none ↔ l = [] := by
  cases l with
  | nil => simp
  | cons b bs =>
      constructor
      · intro h
        exact absurd h (by simp [List.getLast?_eq_getLast])
      · intro h
        cases h

theorem uniqueAux_findName (n : String) :
    ∀ (items acc : List AssetItem), (findName n acc).length ≤ 1 →
      findName n (uniqueAux acc items) =
        match (findName n items).getLast? with
        | some x => [x]
        | none => findName n acc := by
  intro items
  induction items with
  | nil =>
      intro acc _
      rfl
  | cons item rest ih =>
      intro acc h
      show findName n (uniqueAux (mapInsert acc item) rest) = _
      rw [ih (mapInsert acc item) (mapInsert_findName_le item n acc h)]
      rw [findName_cons]
      by_cases hn : item.name = n
      · rw [if_pos (beq_iff_eq.mpr hn)]
        cases hrest : (findName n rest).getLast? with
        | some x =>
            rw [getLast?_cons_of_some item x (findName n rest) hrest]
        | none =>
            rw [(getLast?_none_iff (findName n rest)).mp hrest]
            show _ = [item]
            rw [mapInsert_findName item n acc h, if_pos (beq_iff_eq.mpr hn)]
      · rw [if_neg (by simp [hn])]
        cases hrest : (findName n rest).getLast? with
        | some x => rfl
        | none =>
            show findName n (mapInsert acc item) = findName n acc
            rw [mapInsert_findName item n acc h, if_neg (by simp [hn])]

theorem uniqueByName_findName (n : String) (items : List AssetItem) :
    findName n (uniqueByName items) =
      match (findName n items).getLast? with
      | some x => [x]
      | none => [] := by
  unfold uniqueByName
  rw [uniqueAux_findName n items [] (by simp [findName])]
  rfl

theorem uniqueByName_findName_le (n : String) (items : List AssetItem) :
    (findName n (uniqueByName items)).length ≤ 1 := by
  rw [uniqueByName_findName]
  cases (findName n items).getLast? <;> simp

theorem findName_cons_le (n : String) (x : AssetItem) (l : List AssetItem) :
    (findName n l).length ≤ (findName n (x :: l)).length := by
  rw [findName_cons]
  split <;> simp

theorem nodup_of_findName_le :
    ∀ l : List AssetItem, (∀ n, (findName n l).length ≤ 1) →
      (l.map (fun a => a.name)).Nodup := by
  intro l
  induction l with
  | nil => intro _; simp
  | cons x xs ih =>
      intro h
      rw [List.map_cons, List.nodup_cons]
      constructor
      · intro hmem
        obtain ⟨y, hy, hyn⟩ := List.mem_map.mp hmem
        have hyf : y ∈ findName x.name xs := List.mem_filter.mpr ⟨hy, beq_iff_eq.mpr hyn⟩
        have hxf : findName x.name (x :: xs) = x :: findName x.name xs := by
          rw [findName_cons, if_pos (beq_self_eq_true _)]
        have := h x.name
        rw [hxf, List.length_cons] at this
        have hlen : 1 ≤ (findName x.name xs).length := by
          cases hf : findName x.name xs with
          | nil => rw [hf] at hyf; cases hyf
          | cons a l2 => simp
        omega
      · exact ih (fun n => le_trans (findName_cons_le n x xs) (h n))

theorem uniqueByName_names_nodup (items : List AssetItem) :
    ((uniqueByName items).map (fun a => a.name)).Nodup :=
  nodup_of_findName_le (uniqueByName items) (fun n => uniqueByName_findName_le n items)

theorem uniqueByName_mem_of_getLast (n : String) (items : List AssetItem) (x : AssetItem)
    (h : (findName n items).getLast? = some x) :
    x ∈ uniqueByName items ∧ x.name = n := by
  have hf := uniqueByName_findName n items
  rw [h] at hf
  have hx : x ∈ findName n (uniqueByName items) := by
    rw [hf]
    exact List.mem_singleton.mpr rfl
  obtain ⟨hmem, hnm⟩ := List.mem_filter.mp hx
  exact ⟨hmem, beq_iff_eq.mp hnm⟩

end Toonflow

namespace Toonflow

/-! ### Lemmas about `upsertAsset` -/

theorem mem_of_head? {α : Type} {l : List α} {x : α} (h : l.head? = some x) : x ∈ l := by
  cases l with
  | nil => cases h
  | cons a as =>
      rw [List.head?_cons, Option.some.injEq] at h
      rw [← h]
      exact List.mem_cons_self _ _

theorem eq_singleton_of_head?_len {α : Type} {l : List α} {x : α}
    (h : l.head? = some x) (hlen : l.length ≤ 1) : l = [x] := by
  cases l with
  | nil => cases h
  | cons a as =>
      rw [List.head?_cons, Option.some.injEq] at h
      cases as with
      | nil => rw [h]
      | cons b bs => simp at hlen

theorem pairwise_filter_len {α : Type} (R : α → α → Prop) (p : α → Bool) :
    ∀ l : List α, l.Pairwise R →
      (∀ a b, p a = true → p b = true → R a b → False) →
      (l.filter p).length ≤ 1 := by
  intro l hpw hcomp
  induction l with
  | nil => simp
  | cons x xs ih =>
      rw [List.pairwise_cons] at hpw
      rw [List.filter_cons]
      by_cases hp : p x = true
      · rw [if_pos hp]
        have hnil : xs.filter p = [] := by
          rw [List.filter_eq_nil_iff]
          intro y hy hpy
          exact hcomp x y hp hpy (hpw.1 y hy)
        rw [hnil]
        simp
      · rw [if_neg hp]
        exact ih hpw.2

theorem assetsOf_len_le (pid : Nat) (t : AssetType) (n : String) (db : Db)
    (hku : db.assets.Pairwise
      (fun a b => ¬(a.projectId = b.projectId ∧ a.type = b.type ∧ a.name = b.name))) :
    (assetsOf pid t n db).length ≤ 1 := by
  apply pairwise_filter_len _ _ db.assets hku
  intro a b hpa hpb hR
  simp only [Bool.and_eq_true, beq_iff_eq] at hpa hpb
  exact hR ⟨hpa.1.1.trans hpb.1.1.symm, hpa.1.2.trans hpb.1.2.symm, hpa.2.trans hpb.2.symm⟩

theorem upsert_eq_insert (pid : Nat) (t : AssetType) (item : AssetItem) (db : Db)
    (h : findAssetByTypeAndName pid t item.name db = none) :
    upsertAsset pid t item db =
      (UpsertResult.inserted,
       { db with
           assets := db.assets ++
             [{ id := db.nextAssetId, projectId := pid, type := t, name := item.name,
                intro := item.description, prompt := item.description }],
           nextAssetId := db.nextAssetId + 1 }) := by
  unfold upsertAsset
  rw [h]

theorem upsert_eq_update (pid : Nat) (t : AssetType) (item : AssetItem) (db : Db)
    (ex : AssetRec) (h : findAssetByTypeAndName pid t item.name db = some ex)
    (hne : ex.intro ≠ item.description) :
    upsertAsset pid t item db =
      (UpsertResult.updated,
       { db with
           assets := db.assets.map (fun a =>
             if a.id == ex.id then
               { a with intro := item.description, prompt := item.description }
             else a) }) := by
  unfold upsertAsset
  rw [h]
  simp only [if_pos hne]

theorem upsert_eq_skip (pid : Nat) (t : AssetType) (item : AssetItem) (db : Db)
    (ex : AssetRec) (h : findAssetByTypeAndName pid t item.name db = some ex)
    (hintro : ex.intro = item.description) :
    upsertAsset pid t item db = (UpsertResult.skipped, db) := by
  unfold upsertAsset
  rw [h]
  simp only [if_neg (not_not.mpr hintro)]

theorem upsert_preserves (pid : Nat) (t : AssetType) (item : AssetItem) (db : Db) :
    (upsertAsset pid t item db).2.outlines = db.outlines ∧
    (upsertAsset pid t item db).2.scripts = db.scripts := by
  cases h : findAssetByTypeAndName pid t item.name db with
  | none => rw [upsert_eq_insert pid t item db h]; exact ⟨rfl, rfl⟩
  | some ex =>
      by_cases hne : ex.intro = item.description
      · rw [upsert_eq_skip pid t item db ex h hne]; exact ⟨rfl, rfl⟩
      · rw [upsert_eq_update pid t item db ex h hne]; exact ⟨rfl, rfl⟩

theorem updateField_keys (d : String) (eid : Nat) (a : AssetRec) :
    (if a.id == eid then { a with intro := d, prompt := d } else a).projectId = a.projectId ∧
    (if a.id == eid then { a with intro := d, prompt := d } else a).type = a.type ∧
    (if a.id == eid then { a with intro := d, prompt := d } else a).name = a.name ∧
    (if a.id == eid then { a with intro := d, prompt := d } else a).id = a.id := by
  by_cases h : a.id = eid
  · rw [if_pos (beq_iff_eq.mpr h)]
    exact ⟨rfl, rfl, rfl, rfl⟩
  · rw [if_neg (by rw [beq_iff_eq]; exact h)]
    exact ⟨rfl, rfl, rfl, rfl⟩

theorem upsert_wf (pid : Nat) (t : AssetType) (item : AssetItem) (db : Db)
    (hni : ((db.assets.map (fun a => a.id)).Nodup))
    (hb : ∀ a ∈ db.assets, a.id < db.nextAssetId) :
    (((upsertAsset pid t item db).2.assets.map (fun a => a.id)).Nodup) ∧
    (∀ a ∈ (upsertAsset pid t item db).2.assets,
        a.id < (upsertAsset pid t item db).2.nextAssetId) := by
  cases h : findAssetByTypeAndName pid t item.name db with
  | none =>
      rw [upsert_eq_insert pid t item db h]
      constructor
      · rw [List.map_append]
        rw [List.nodup_append]
        refine ⟨hni, List.nodup_singleton _, ?_⟩
        intro a ha hmem
        obtain ⟨rec, hrec, hrid⟩ := List.mem_map.mp ha
        have hlt := hb rec hrec
        have : a = db.nextAssetId := by
          rcases List.mem_singleton.mp hmem with rfl
          rfl
        omega
      · intro a ha
        rcases List.mem_append.mp ha with hmem | hmem
        · exact lt_trans (hb a hmem) (Nat.lt_succ_self _)
        · rcases List.mem_singleton.mp hmem with rfl
          exact Nat.lt_succ_self _
  | some ex =>
      by_cases hne : ex.intro = item.description
      · rw [upsert_eq_skip pid t item db ex h hne]
        exact ⟨hni, hb⟩
      · rw [upsert_eq_update pid t item db ex h hne]
        have hids : (db.assets.map (fun a =>
            if a.id == ex.id then
              { a with intro := item.description, prompt := item.description }
            else a)).map (fun a => a.id) = db.assets.map (fun a => a.id) := by
          rw [List.map_map]
          exact List.map_congr_left (fun a _ =>
            (updateField_keys item.description ex.id a).2.2.2)
        constructor
        · rw [hids]
          exact hni
        · intro a ha
          obtain ⟨b, hbmem, hba⟩ := List.mem_map.mp ha
          have hkey := (updateField_keys item.description ex.id b).2.2.2
          have : a.id = b.id := by rw [← hba]; exact hkey
          rw [this]
          exact hb b hbmem

theorem upsert_keyUniq (pid : Nat) (t : AssetType) (item : AssetItem) (db : Db)
    (hku : db.assets.Pairwise
      (fun a b => ¬(a.projectId = b.projectId ∧ a.type = b.type ∧ a.name = b.name))) :
    (upsertAsset pid t item db).2.assets.Pairwise
      (fun a b => ¬(a.projectId = b.projectId ∧ a.type = b.type ∧ a.name = b.name)) := by
  cases h : findAssetByTypeAndName pid t item.name db with
  | none =>
      rw [upsert_eq_insert pid t item db h]
      rw [List.pairwise_append]
      refine ⟨hku, List.pairwise_singleton _ _, ?_⟩
      intro a ha b hb
      rcases List.mem_singleton.mp hb with rfl
      rintro ⟨h1, h2, h3⟩
      have hnil : assetsOf pid t item.name db = [] :=
        List.head?_eq_none_iff.mp h
      have : a ∈ assetsOf pid t item.name db := by
        unfold assetsOf
        refine List.mem_filter.mpr ⟨ha, ?_⟩
        simp only [Bool.and_eq_true, beq_iff_eq]
        exact ⟨⟨h1, h2⟩, h3⟩
      rw [hnil] at this
      cases this
  | some ex =>
      by_cases hne : ex.intro = item.description
      · rw [upsert_eq_skip pid t item db ex h hne]
        exact hku
      · rw [upsert_eq_update pid t item db ex h hne]
        rw [List.pairwise_map]
        apply hku.imp
        intro a b hR hcon
        apply hR
        have ka := updateField_keys item.description ex.id a
        have kb := updateField_keys item.description ex.id b
        exact ⟨(ka.1.symm.trans hcon.1).trans kb.1,
               (ka.2.1.symm.trans hcon.2.1).trans kb.2.1,
               (ka.2.2.1.symm.trans hcon.2.2).trans kb.2.2.1⟩

end Toonflow


namespace Toonflow

theorem upsert_filter_map_comm (pid : Nat) (t' : AssetType) (n' : String)
    (d : String) (eid : Nat) (l : List AssetRec) :
    (l.map (fun a => if a.id == eid then { a with intro := d, prompt := d } else a)).filter
        (fun a => a.projectId == pid && a.type == t' && a.name == n') =
      (l.filter (fun a => a.projectId == pid && a.type == t' && a.name == n')).map
        (fun a => if a.id == eid then { a with intro := d, prompt := d } else a) := by
  rw [List.filter_map]
  congr 1
  apply List.filter_congr
  intro a _
  obtain ⟨k1, k2, k3, _⟩ := updateField_keys d eid a
  show ((if a.id == eid then { a with intro := d, prompt := d } else a).projectId == pid &&
      (if a.id == eid then { a with intro := d, prompt := d } else a).type == t' &&
      (if a.id == eid then { a with intro := d, prompt := d } else a).name == n') = _
  rw [k1, k2, k3]

theorem upsert_assetsOf_self (pid : Nat) (t : AssetType) (item : AssetItem) (db : Db)
    (hni : ((db.assets.map (fun a => a.id)).Nodup))
    (hku : db.assets.Pairwise
      (fun a b => ¬(a.projectId = b.projectId ∧ a.type = b.type ∧ a.name = b.name))) :
    (assetsOf pid t item.name (upsertAsset pid t item db).2).map (fun a => a.intro) =
      [item.description] := by
  cases h : findAssetByTypeAndName pid t item.name db with
  | none =>
      rw [upsert_eq_insert pid t item db h]
      unfold assetsOf
      rw [List.filter_append]
      have hnil : db.assets.filter
          (fun a => a.projectId == pid && a.type == t && a.name == item.name) = [] := by
        have h2 := List.head?_eq_none_iff.mp h
        unfold assetsOf at h2
        exact h2
      rw [hnil, List.nil_append, List.filter_cons, if_pos (by simp)]
      rfl
  | some ex =>
      have hsing : assetsOf pid t item.name db = [ex] :=
        eq_singleton_of_head?_len h (assetsOf_len_le pid t item.name db hku)
      by_cases hne : ex.intro = item.description
      · rw [upsert_eq_skip pid t item db ex h hne]
        rw [hsing, List.map_cons, List.map_nil, hne]
      · rw [upsert_eq_update pid t item db ex h hne]
        unfold assetsOf
        rw [upsert_filter_map_comm]
        unfold assetsOf at hsing
        rw [hsing, List.map_cons, List.map_nil, List.map_cons, List.map_nil,
          if_pos (beq_self_eq_true ex.id)]

theorem upsert_assetsOf_other (pid : Nat) (t : AssetType) (item : AssetItem) (db : Db)
    (t' : AssetType) (n' : String) (hne : ¬(t' = t ∧ n' = item.name))
    (hni : ((db.assets.map (fun a => a.id)).Nodup)) :
    assetsOf pid t' n' (upsertAsset pid t item db).2 = assetsOf pid t' n' db := by
  cases h : findAssetByTypeAndName pid t item.name db with
  | none =>
      rw [upsert_eq_insert pid t item db h]
      unfold assetsOf
      rw [List.filter_append, List.filter_cons]
      rw [if_neg ?_]
      · rw [List.filter_nil, List.append_nil]
      · intro hcon
        simp only [Bool.and_eq_true, beq_iff_eq] at hcon
        exact hne ⟨hcon.1.2.symm, hcon.2.symm⟩
  | some ex =>
      by_cases hskip : ex.intro = item.description
      · rw [upsert_eq_skip pid t item db ex h hskip]
      · rw [upsert_eq_update pid t item db ex h hskip]
        unfold assetsOf
        rw [upsert_filter_map_comm]
        have hexmem : ex ∈ db.assets := by
          have h2 := mem_of_head? h
          exact (List.mem_filter.mp h2).1
        have hexkey : ex.projectId = pid ∧ ex.type = t ∧ ex.name = item.name := by
          have h2 := mem_of_head? h
          have hp := (List.mem_filter.mp h2).2
          simp only [Bool.and_eq_true, beq_iff_eq] at hp
          exact ⟨hp.1.1, hp.1.2, hp.2⟩
        have hid : ∀ a ∈ db.assets.filter
            (fun a => a.projectId == pid && a.type == t' && a.name == n'),
            (if a.id == ex.id then
              { a with intro := item.description, prompt := item.description }
            else a) = a := by
          intro a hamem
          have haid : a.id ≠ ex.id := by
            intro hcon
            have hamem2 : a ∈ db.assets := (List.mem_filter.mp hamem).1
            have haeq : a = ex := List.inj_on_of_nodup_map hni hamem2 hexmem hcon
            have hp := (List.mem_filter.mp hamem).2
            rw [haeq] at hp
            simp only [Bool.and_eq_true, beq_iff_eq] at hp
            exact hne ⟨hp.1.2.symm.trans hexkey.2.1, hp.2.symm.trans hexkey.2.2⟩
          rw [if_neg (by rw [beq_iff_eq]; exact haid)]
        calc (db.assets.filter
              (fun a => a.projectId == pid && a.type == t' && a.name == n')).map
                (fun a => if a.id == ex.id then
                  { a with intro := item.description, prompt := item.description } else a)
            = (db.assets.filter
                (fun a => a.projectId == pid && a.type == t' && a.name == n')).map id := by
              exact List.map_congr_left (fun a ha => hid a ha)
          _ = _ := by rw [List.map_id]

end Toonflow

namespace Toonflow

/-! ### Lemmas about `processItems` and `generateAssetsFromOutlines` -/

theorem processItems_spec (pid : Nat) (t : AssetType) :
    ∀ (items : List AssetItem) (acc : Stats × Db),
      ((acc.2.assets.map (fun a => a.id)).Nodup) →
      (∀ a ∈ acc.2.assets, a.id < acc.2.nextAssetId) →
      (acc.2.assets.Pairwise
        (fun a b => ¬(a.projectId = b.projectId ∧ a.type = b.type ∧ a.name = b.name))) →
      ((items.map (fun it => it.name)).Nodup) →
      (processItems pid t items acc).2.outlines = acc.2.outlines ∧
      (processItems pid t items acc).2.scripts = acc.2.scripts ∧
      (((processItems pid t items acc).2.assets.map (fun a => a.id)).Nodup) ∧
      (∀ a ∈ (processItems pid t items acc).2.assets,
          a.id < (processItems pid t items acc).2.nextAssetId) ∧
      ((processItems pid t items acc).2.assets.Pairwise
        (fun a b => ¬(a.projectId = b.projectId ∧ a.type = b.type ∧ a.name = b.name))) ∧
      (∀ it ∈ items,
          (assetsOf pid t it.name (processItems pid t items acc).2).map (fun a => a.intro) =
            [it.description]) ∧
      (∀ (t' : AssetType) (n' : String), (t' = t → n' ∉ items.map (fun it => it.name)) →
          assetsOf pid t' n' (processItems pid t items acc).2 = assetsOf pid t' n' acc.2) := by
  intro items
  induction items with
  | nil =>
      intro acc hni hb hku _
      exact ⟨rfl, rfl, hni, hb, hku, fun it hit => absurd hit (List.not_mem_nil it),
        fun t' n' _ => rfl⟩
  | cons it rest ih =>
      intro acc hni hb hku hnames
      rw [List.map_cons, List.nodup_cons] at hnames
      obtain ⟨hhead, htail⟩ := hnames
      have hpi : processItems pid t (it :: rest) acc =
          processItems pid t rest
            (bump acc.1 (upsertAsset pid t it acc.2).1, (upsertAsset pid t it acc.2).2) := rfl
      have hwf1 := upsert_wf pid t it acc.2 hni hb
      have hku1 := upsert_keyUniq pid t it acc.2 hku
      have hpres := upsert_preserves pid t it acc.2
      obtain ⟨iho, ihs, ihn, ihb, ihk, ihit, ihother⟩ :=
        ih (bump acc.1 (upsertAsset pid t it acc.2).1, (upsertAsset pid t it acc.2).2)
          hwf1.1 hwf1.2 hku1 htail
      rw [hpi]
      refine ⟨iho.trans hpres.1, ihs.trans hpres.2, ihn, ihb, ihk, ?_, ?_⟩
      · intro x hx
        rcases List.mem_cons.mp hx with rfl | hx
        · rw [ihother t x.name (fun _ => hhead)]
          exact upsert_assetsOf_self pid t x acc.2 hni hku
        · exact ihit x hx
      · intro t' n' hcond
        have hrest : t' = t → n' ∉ rest.map (fun it => it.name) := by
          intro ht
          have := hcond ht
          rw [List.map_cons] at this
          exact fun hmem => this (List.mem_cons_of_mem _ hmem)
        rw [ihother t' n' hrest]
        apply upsert_assetsOf_other pid t it acc.2 t' n' ?_ hni
        rintro ⟨rfl, rfl⟩
        have := hcond rfl
        rw [List.map_cons] at this
        exact this (List.mem_cons_self _ _)

theorem generateAssets_spec (pid : Nat) (db : Db)
    (hni : ((db.assets.map (fun a => a.id)).Nodup))
    (hb : ∀ a ∈ db.assets, a.id < db.nextAssetId)
    (hku : db.assets.Pairwise
      (fun a b => ¬(a.projectId = b.projectId ∧ a.type = b.type ∧ a.name = b.name))) :
    (generateAssetsFromOutlines pid db).2.outlines = db.outlines ∧
    (generateAssetsFromOutlines pid db).2.scripts = db.scripts ∧
    (((generateAssetsFromOutlines pid db).2.assets.map (fun a => a.id)).Nodup) ∧
    (∀ a ∈ (generateAssetsFromOutlines pid db).2.assets,
        a.id < (generateAssetsFromOutlines pid db).2.nextAssetId) ∧
    ((generateAssetsFromOutlines pid db).2.assets.Pairwise
      (fun a b => ¬(a.projectId = b.projectId ∧ a.type = b.type ∧ a.name = b.name))) ∧
    (∀ it ∈ (extractAssetsFromOutlines (projectOutlines pid db)).characters,
        (assetsOf pid AssetType.character it.name (generateAssetsFromOutlines pid db).2).map
          (fun a => a.intro) = [it.description]) ∧
    (∀ it ∈ (extractAssetsFromOutlines (projectOutlines pid db)).props,
        (assetsOf pid AssetType.prop it.name (generateAssetsFromOutlines pid db).2).map
          (fun a => a.intro) = [it.description]) ∧
    (∀ it ∈ (extractAssetsFromOutlines (projectOutlines pid db)).scenes,
        (assetsOf pid AssetType.scene it.name (generateAssetsFromOutlines pid db).2).map
          (fun a => a.intro) = [it.description]) := by
  by_cases hemp : (projectOutlines pid db).isEmpty = true
  · have hpe : projectOutlines pid db = [] := List.isEmpty_iff.mp hemp
    have hgen : generateAssetsFromOutlines pid db = (⟨0, 0, 0⟩, db) := by
      simp only [generateAssetsFromOutlines, hemp, if_true]
    rw [hgen, hpe]
    have hext : extractAssetsFromOutlines ([] : List OutlineRec) =
        Extracted.mk [] [] [] := rfl
    rw [hext]
    exact ⟨rfl, rfl, hni, hb, hku,
      fun it hit => absurd hit (List.not_mem_nil it),
      fun it hit => absurd hit (List.not_mem_nil it),
      fun it hit => absurd hit (List.not_mem_nil it)⟩
  · have hgen : generateAssetsFromOutlines pid db =
        processItems pid AssetType.scene
          (extractAssetsFromOutlines (projectOutlines pid db)).scenes
          (processItems pid AssetType.prop
            (extractAssetsFromOutlines (projectOutlines pid db)).props
            (processItems pid AssetType.character
              (extractAssetsFromOutlines (projectOutlines pid db)).characters
              (⟨0, 0, 0⟩, db))) := by
      simp only [generateAssetsFromOutlines, if_neg hemp]
    have hcnames : (((extractAssetsFromOutlines (projectOutlines pid db)).characters.map
        (fun it => it.name)).Nodup) := uniqueByName_names_nodup _
    have hpnames : (((extractAssetsFromOutlines (projectOutlines pid db)).props.map
        (fun it => it.name)).Nodup) := uniqueByName_names_nodup _
    have hsnames : (((extractAssetsFromOutlines (projectOutlines pid db)).scenes.map
        (fun it => it.name)).Nodup) := uniqueByName_names_nodup _
    obtain ⟨c_o, c_s, c_n, c_b, c_k, c_it, c_other⟩ :=
      processItems_spec pid AssetType.character
        (extractAssetsFromOutlines (projectOutlines pid db)).characters
        (⟨0, 0, 0⟩, db) hni hb hku hcnames
    obtain ⟨p_o, p_s, p_n, p_b, p_k, p_it, p_other⟩ :=
      processItems_spec pid AssetType.prop
        (extractAssetsFromOutlines (projectOutlines pid db)).props
        (processItems pid AssetType.character
          (extractAssetsFromOutlines (projectOutlines pid db)).characters
          (⟨0, 0, 0⟩, db)) c_n c_b c_k hpnames
    obtain ⟨s_o, s_s, s_n, s_b, s_k, s_it, s_other⟩ :=
      processItems_spec pid AssetType.scene
        (extractAssetsFromOutlines (projectOutlines pid db)).scenes
        (processItems pid AssetType.prop
          (extractAssetsFromOutlines (projectOutlines pid db)).props
          (processItems pid AssetType.character
            (extractAssetsFromOutlines (projectOutlines pid db)).characters
            (⟨0, 0, 0⟩, db))) p_n p_b p_k hsnames
    rw [hgen]
    refine ⟨(s_o.trans p_o).trans c_o, (s_s.trans p_s).trans c_s, s_n, s_b, s_k, ?_, ?_, s_it⟩
    · intro it hit
      rw [s_other AssetType.character it.name (fun hcon => by cases hcon)]
      rw [p_other AssetType.character it.name (fun hcon => by cases hcon)]
      exact c_it it hit
    · intro it hit
      rw [s_other AssetType.prop it.name (fun hcon => by cases hcon)]
      exact p_it it hit

end Toonflow

namespace Toonflow

theorem head?_intro_of_map_singleton (l : List AssetRec) (d : String)
    (h : l.map (fun a => a.intro) = [d]) : ∃ x, l.head? = some x ∧ x.intro = d := by
  cases l with
  | nil => cases h
  | cons x xs =>
      rw [List.map_cons] at h
      injection h with h1 _
      exact ⟨x, rfl, h1⟩

theorem processItems_allSkip (pid : Nat) (t : AssetType) :
    ∀ (items : List AssetItem) (st : Stats) (db : Db),
      (∀ it ∈ items, ∃ ex, findAssetByTypeAndName pid t it.name db = some ex ∧
          ex.intro = it.description) →
      processItems pid t items (st, db) =
        (Stats.mk st.inserted st.updated (st.skipped + items.length), db) := by
  intro items
  induction items with
  | nil =>
      intro st db _
      show (st, db) = _
      rw [List.length_nil, Nat.add_zero]
  | cons it rest ih =>
      intro st db h
      obtain ⟨ex, hf, hintro⟩ := h it (List.mem_cons_self _ _)
      have hskip := upsert_eq_skip pid t it db ex hf hintro
      have hstep : processItems pid t (it :: rest) (st, db) =
          processItems pid t rest (bump st UpsertResult.skipped, db) := by
        show processItems pid t rest
            (bump st (upsertAsset pid t it db).1, (upsertAsset pid t it db).2) = _
        rw [hskip]
      rw [hstep]
      rw [ih (bump st UpsertResult.skipped) db
        (fun it' hit' => h it' (List.mem_cons_of_mem _ hit'))]
      show (Stats.mk st.inserted st.updated (st.skipped + 1 + rest.length), db) = _
      rw [List.length_cons]
      have : st.skipped + 1 + rest.length = st.skipped + (rest.length + 1) := by omega
      rw [this]

/-! ### C5 -/

/-- C5 counterexample: in a reachable store (overwrite save of episodes 1
and 2, the latter holding character Lin/A, then an append with
`startEpisode = 1` holding Lin/B), the outline with the highest episode
number holds Lin's description "A", yet after `generateAssets` the single
Lin asset holds "B" — the description of the last row in store-scan order,
not of the outline with the highest episode number: the scan issues no
episode ordering. -/
theorem c5_counterexample :
    ((sortEpisodeAsc (projectOutlines 1 dbLinStoreLast)).getLast?.map
        (fun o => (safeParseJson o.data {}).characters)) =
      some (some [AssetItem.mk "Lin" "A"]) ∧
    (assetsOf 1 AssetType.character "Lin"
        (generateAssetsFromOutlines 1 dbLinStoreLast).2).map (fun a => a.intro) = ["B"] ∧
    ("B" : String) ≠ "A" := by
  refine ⟨by decide, by decide, by decide⟩

/-- C5 (amended): character/prop/scene entries are accumulated across the
project's outlines in the order the store returns them (the query requests
no episode ordering) and deduplicated by name with the last occurrence in
that scan order winning: on a store with unique asset ids below the counter
and at most one asset per (project, type, name), if the last occurrence of
name `n` among the scanned characters is the entry `it`, then after
`generateAssets` exactly one character asset named `n` exists for the
project and it holds `it`'s description. -/
theorem c5_amended_last_occurrence (db : Db) (pid : Nat) (n : String) (it : AssetItem)
    (hni : ((db.assets.map (fun a => a.id)).Nodup))
    (hb : ∀ a ∈ db.assets, a.id < db.nextAssetId)
    (hku : db.assets.Pairwise
      (fun a b => ¬(a.projectId = b.projectId ∧ a.type = b.type ∧ a.name = b.name)))
    (hlast : (findName n (accumulateAssets (projectOutlines pid db)).characters).getLast? =
      some it) :
    (assetsOf pid AssetType.character n (generateAssetsFromOutlines pid db).2).map
      (fun a => a.intro) = [it.description] := by
  obtain ⟨hmem, hname⟩ :=
    uniqueByName_mem_of_getLast n (accumulateAssets (projectOutlines pid db)).characters it hlast
  have hmem2 : it ∈ (extractAssetsFromOutlines (projectOutlines pid db)).characters := hmem
  have hspec := generateAssets_spec pid db hni hb hku
  have := hspec.2.2.2.2.2.1 it hmem2
  rw [hname] at this
  exact this

/-- C5 witness: the amended theorem at the spec's own two-outline `Lin`
example, stored in episode order. -/
theorem c5_amended_witness :
    ((dbLinTwo.assets.map (fun a => a.id)).Nodup) ∧
    (∀ a ∈ dbLinTwo.assets, a.id < dbLinTwo.nextAssetId) ∧
    (dbLinTwo.assets.Pairwise
      (fun a b => ¬(a.projectId = b.projectId ∧ a.type = b.type ∧ a.name = b.name))) ∧
    ((findName "Lin" (accumulateAssets (projectOutlines 1 dbLinTwo)).characters).getLast? =
      some (AssetItem.mk "Lin" "B")) ∧
    (assetsOf 1 AssetType.character "Lin" (generateAssetsFromOutlines 1 dbLinTwo).2).map
      (fun a => a.intro) = [(AssetItem.mk "Lin" "B").description] :=
  ⟨by decide, by decide, by decide, by decide,
   c5_amended_last_occurrence dbLinTwo 1 "Lin" (AssetItem.mk "Lin" "B")
     (by decide) (by decide) (by decide) (by decide)⟩

/-! ### C6 -/

/-- C6: on a store with unique asset ids below the counter and at most one
asset per (project, type, name), running `generateAssets` twice with no
outline changes in between makes the second run report `inserted = 0`,
`updated = 0` and `skipped` equal to the number of distinct deduplicated
(type, name) entries, and leaves the store — every asset record included —
exactly as the first run left it. -/
theorem c6_idempotent (db : Db) (pid : Nat)
    (hni : ((db.assets.map (fun a => a.id)).Nodup))
    (hb : ∀ a ∈ db.assets, a.id < db.nextAssetId)
    (hku : db.assets.Pairwise
      (fun a b => ¬(a.projectId = b.projectId ∧ a.type = b.type ∧ a.name = b.name))) :
    generateAssetsFromOutlines pid (generateAssetsFromOutlines pid db).2 =
      (Stats.mk 0 0
        ((extractAssetsFromOutlines (projectOutlines pid db)).characters.length +
         (extractAssetsFromOutlines (projectOutlines pid db)).props.length +
         (extractAssetsFromOutlines (projectOutlines pid db)).scenes.length),
       (generateAssetsFromOutlines pid db).2) := by
  obtain ⟨houts, _, _, _, _, hchars, hprops, hscenes⟩ := generateAssets_spec pid db hni hb hku
  set db1 := (generateAssetsFromOutlines pid db).2 with hdb1
  have hpo : projectOutlines pid db1 = projectOutlines pid db := by
    unfold projectOutlines
    rw [houts]
  by_cases hemp : (projectOutlines pid db).isEmpty = true
  · have hpe : projectOutlines pid db = [] := List.isEmpty_iff.mp hemp
    have hemp2 : (projectOutlines pid db1).isEmpty = true := by
      rw [hpo]
      exact hemp
    simp only [generateAssetsFromOutlines, hemp2, if_true]
    rw [hpe]
    rfl
  · have hemp2 : ¬((projectOutlines pid db1).isEmpty = true) := by
      rw [hpo]
      exact hemp
    have hgen2 : generateAssetsFromOutlines pid db1 =
        processItems pid AssetType.scene
          (extractAssetsFromOutlines (projectOutlines pid db)).scenes
          (processItems pid AssetType.prop
            (extractAssetsFromOutlines (projectOutlines pid db)).props
            (processItems pid AssetType.character
              (extractAssetsFromOutlines (projectOutlines pid db)).characters
              (⟨0, 0, 0⟩, db1))) := by
      simp only [generateAssetsFromOutlines, hpo]
      rw [if_neg hemp]
    have hskipC := processItems_allSkip pid AssetType.character
      (extractAssetsFromOutlines (projectOutlines pid db)).characters
      ⟨0, 0, 0⟩ db1
      (fun it hit => by
        obtain ⟨x, hx, hxi⟩ := head?_intro_of_map_singleton _ _ (hchars it hit)
        exact ⟨x, hx, hxi⟩)
    have hskipP := processItems_allSkip pid AssetType.prop
      (extractAssetsFromOutlines (projectOutlines pid db)).props
      (Stats.mk 0 0 (0 + (extractAssetsFromOutlines (projectOutlines pid db)).characters.length))
      db1
      (fun it hit => by
        obtain ⟨x, hx, hxi⟩ := head?_intro_of_map_singleton _ _ (hprops it hit)
        exact ⟨x, hx, hxi⟩)
    have hskipS := processItems_allSkip pid AssetType.scene
      (extractAssetsFromOutlines (projectOutlines pid db)).scenes
      (Stats.mk 0 0
        (0 + (extractAssetsFromOutlines (projectOutlines pid db)).characters.length +
          (extractAssetsFromOutlines (projectOutlines pid db)).props.length))
      db1
      (fun it hit => by
        obtain ⟨x, hx, hxi⟩ := head?_intro_of_map_singleton _ _ (hscenes it hit)
        exact ⟨x, hx, hxi⟩)
    rw [hgen2, hskipC, hskipP, hskipS]
    rw [Nat.zero_add]

/-- C6 witness: the theorem applied to the concrete `Lin` store. -/
theorem c6_idempotent_witness :
    ((dbLinTwo.assets.map (fun a => a.id)).Nodup) ∧
    (∀ a ∈ dbLinTwo.assets, a.id < dbLinTwo.nextAssetId) ∧
    (dbLinTwo.assets.Pairwise
      (fun a b => ¬(a.projectId = b.projectId ∧ a.type = b.type ∧ a.name = b.name))) ∧
    generateAssetsFromOutlines 1 (generateAssetsFromOutlines 1 dbLinTwo).2 =
      (Stats.mk 0 0
        ((extractAssetsFromOutlines (projectOutlines 1 dbLinTwo)).characters.length +
         (extractAssetsFromOutlines (projectOutlines 1 dbLinTwo)).props.length +
         (extractAssetsFromOutlines (projectOutlines 1 dbLinTwo)).scenes.length),
       (generateAssetsFromOutlines 1 dbLinTwo).2) :=
  ⟨by decide, by decide, by decide,
   c6_idempotent dbLinTwo 1 (by decide) (by decide) (by decide)⟩

end Toonflow
